import Mathlib

/-!
Verification development for the HelloKnightRemoteCam release tooling.

The Python sources under scripts/ are shallowly embedded here.  Python
strings are modelled as lists of characters (`PyStr`), Python dictionaries
with string keys as insertion-ordered association lists, files as their
character content, and per-file exceptions as `Except` values.  The
regular expressions used by the sources are small and are embedded as
explicit recursive matchers; the embedding keeps the semantics of the
Python `re` module for the patterns that actually occur, including the
detail that an unanchored `$` also matches just before a trailing
newline, and that `re.match` only anchors at the start of the string.
-/

/-- Python strings are modelled as lists of characters. -/
abbrev PyStr := List Char

deriving instance DecidableEq for Except

namespace RemoteCam

/-- Characters stripped by Python `str.strip()` with no argument
(space, tab, newline, carriage return, vertical tab, form feed). -/
def pySpace (c : Char) : Bool :=
  c == ' ' || c == '\t' || c == '\n' || c == '\r' || c == '\x0b' || c == '\x0c'

/-- Test for a nonempty all-digit string, the semantics of Python
`str.isdigit` restricted to ASCII data. -/
def digitsNonempty (cs : PyStr) : Bool :=
  !cs.isEmpty && cs.all Char.isDigit

/-- Numeric value of an all-digit string. -/
def digitsToNat (cs : PyStr) : Nat :=
  cs.foldl (fun n c => 10 * n + (c.toNat - ('0').toNat)) 0

/-- Drop trailing characters satisfying `p`. -/
def dropTrail (p : Char → Bool) (cs : PyStr) : PyStr :=
  (cs.reverse.dropWhile p).reverse

/-- Python `str.strip()`: remove leading and trailing whitespace. -/
def pyStrip (cs : PyStr) : PyStr :=
  dropTrail pySpace (cs.dropWhile pySpace)

/-- Python `int(...)` on the strings produced by this code base: strip
whitespace, then require a nonempty digit string. -/
def pyInt (cs : PyStr) : Option Nat :=
  let t := pyStrip cs
  if digitsNonempty t then some (digitsToNat t) else none

/-- Decimal digits of a natural number, matching the output of a Python
f-string placeholder holding an `int`. -/
def natToDigits (n : Nat) : PyStr :=
  Nat.toDigits 10 n

/-- Split a string at every occurrence of `sep`.  The result is the list
of (possibly empty) segments; it is never the empty list. -/
def splitOnChar (sep : Char) : PyStr → List PyStr
  | [] => [[]]
  | c :: t =>
    match splitOnChar sep t with
    | [] => [[c]]
    | g :: gs => if c = sep then [] :: g :: gs else (c :: g) :: gs

/-- Split a string at the first occurrence of `sep`, returning the parts
before and after it, or `none` if `sep` does not occur.  This is Python
`str.split(sep, 1)` restricted to one-character separators. -/
def splitFirstCh (sep : Char) : PyStr → Option (PyStr × PyStr)
  | [] => none
  | c :: t =>
    if c = sep then some ([], t)
    else
      match splitFirstCh sep t with
      | some (a, b) => some (c :: a, b)
      | none => none

/-- Split a string at the last occurrence of a plus sign, the semantics
of Python `str.rsplit` with separator `+` and count 1, returning `none`
when no plus sign occurs. -/
def rsplitPlus : PyStr → Option (PyStr × PyStr)
  | [] => none
  | c :: t =>
    match rsplitPlus t with
    | some (v, b) => some (c :: v, b)
    | none => if c = '+' then some ([], t) else none

/-- Test whether `pre` is an initial segment of `s`. -/
def startsL : PyStr → PyStr → Bool
  | [], _ => true
  | _ :: _, [] => false
  | a :: as, b :: bs => a == b && startsL as bs

/-- Remove the initial segment `pre` from `s`, or fail. -/
def dropStart : PyStr → PyStr → Option PyStr
  | [], s => some s
  | _ :: _, [] => none
  | a :: as, b :: bs => if a = b then dropStart as bs else none

/-- Substring containment, the semantics of the Python `in` operator on
strings. -/
def containsSub (needle : PyStr) : PyStr → Bool
  | [] => startsL needle []
  | c :: t => startsL needle (c :: t) || containsSub needle t

/-- Replace every non-overlapping occurrence of a nonempty `needle` by
`rep`, left to right, the semantics of Python `str.replace`. -/
def replaceAll (needle rep : PyStr) : PyStr → PyStr
  | [] => []
  | c :: t =>
    if startsL needle (c :: t) && !needle.isEmpty then
      rep ++ replaceAll needle rep ((c :: t).drop needle.length)
    else
      c :: replaceAll needle rep t
termination_by hay => hay.length
decreasing_by
  · rename_i h
    have hne : needle ≠ [] := by
      intro he
      rw [he] at h
      simp at h
    have hpos : 0 < needle.length := List.length_pos.mpr hne
    simp only [List.length_drop, List.length_cons]
    omega
  · simp [List.length_cons]

/-- Interleave `sep` between the segments, mutually inverse to
`splitOnChar` on segment lists coming from a split. -/
def joinChar (sep : Char) : List PyStr → PyStr
  | [] => []
  | [g] => g
  | g :: g2 :: gs => g ++ sep :: joinChar sep (g2 :: gs)

/-- Lookup in an insertion-ordered association list, the semantics of
Python `dict.get` for the dictionaries built by this code base. -/
def lookupAssoc (a : List (PyStr × PyStr)) (k : PyStr) : Option PyStr :=
  match a with
  | [] => none
  | (k0, v0) :: t => if k0 = k then some v0 else lookupAssoc t k

/-- Insertion into an insertion-ordered association list: an existing
key keeps its position and gets the new value, a fresh key is appended,
the semantics of Python dictionary assignment. -/
def insertAssoc (a : List (PyStr × PyStr)) (k v : PyStr) : List (PyStr × PyStr) :=
  match a with
  | [] => [(k, v)]
  | (k0, v0) :: t => if k0 = k then (k0, v) :: t else (k0, v0) :: insertAssoc t k v

/-! Embedding of scripts/lib/version_manager.py. -/

/-- Error taxonomy of the version manager; each constructor corresponds
to one family of `ValueError` or `FileNotFoundError` raised by the
Python code. -/
inductive VErr where
  | invalidFormat
  | unknownBumpKind
  | unknownTarget
  | missingVersion
  | notFound
  | valueError
deriving DecidableEq, Repr

/-- Match of the pattern made of three nonempty digit runs joined by
dots, with both ends anchored exactly: the version-part regular
expression without the Python trailing-newline leniency. -/
def matchTriple (cs : PyStr) : Bool :=
  match splitOnChar '.' cs with
  | [a, b, c] => digitsNonempty a && digitsNonempty b && digitsNonempty c
  | _ => false

/-- Python `re.match` of the anchored three-number pattern used by
`parse_version`: the dollar anchor also accepts one trailing newline. -/
def pyMatchTriple (cs : PyStr) : Bool :=
  matchTriple cs || (cs.getLast? == some '\n' && matchTriple cs.dropLast)

/-- Match of the full version grammar, three dot-joined numbers with an
optional plus and digit run, with both ends anchored exactly. -/
def strictVersionGrammar (cs : PyStr) : Bool :=
  match rsplitPlus cs with
  | none => matchTriple cs
  | some (v, b) => matchTriple v && digitsNonempty b

/-- Embedding of `VersionManager.validate_version`: Python `re.match`
of the anchored full-grammar pattern, `true` when the version string is
accepted (the Python method raises `ValueError` otherwise). -/
def validate_version (cs : PyStr) : Bool :=
  strictVersionGrammar cs ||
    (cs.getLast? == some '\n' && strictVersionGrammar cs.dropLast)

/-- Embedding of `VersionManager.parse_version`: split on the last plus
sign, default the build part to the string 1, reject a version part not
accepted by the three-number pattern, and coerce a non-digit build part
to the string 1. -/
def parse_version (cs : PyStr) : Except VErr (PyStr × PyStr) :=
  match rsplitPlus cs with
  | none =>
    if pyMatchTriple cs then .ok (cs, ['1']) else .error .invalidFormat
  | some (v, b) =>
    if pyMatchTriple v then .ok (v, if digitsNonempty b then b else ['1'])
    else .error .invalidFormat

/-- Version string rebuilt by `bump_version` from its four numeric
components, the image of the Python f-string placeholders. -/
def verStr (major minor patch build : Nat) : PyStr :=
  natToDigits major ++ '.' :: natToDigits minor ++ '.' :: natToDigits patch
    ++ '+' :: natToDigits build

/-- Pure core of `VersionManager.bump_version`: parse the current
version, convert the components with `int`, dispatch on the bump kind
and rebuild the new version string.  The `valueError` branches are the
unreachable `ValueError` paths of the Python unpacking and `int` calls. -/
def bump_version_str (current kind : PyStr) : Except VErr PyStr := do
  let (v, b) ← parse_version current
  match splitOnChar '.' v with
  | [xs, ys, zs] =>
    match pyInt xs, pyInt ys, pyInt zs, pyInt b with
    | some major, some minor, some patch, some build =>
      if kind = ("major").data then
        .ok (verStr (major + 1) 0 0 build)
      else if kind = ("minor").data then
        .ok (verStr major (minor + 1) 0 build)
      else if kind = ("patch").data then
        .ok (verStr major minor (patch + 1) build)
      else if kind = ("build").data then
        .ok (verStr major minor patch (build + 1))
      else
        .error .unknownBumpKind
    | _, _, _, _ => .error .valueError
  | _ => .error .valueError

/-- Target literal for the client deliverable. -/
def clientT : PyStr := ("client").data

/-- Target literal for the server deliverable. -/
def serverT : PyStr := ("server").data

/-- Legacy flat-file key selected for a target, the conditional
expression of the Python old-format branches. -/
def targetKey (t : PyStr) : PyStr :=
  if t = clientT then ("CLIENT_VERSION").data else ("SERVER_VERSION").data

/-- Embedding of `VersionManager._load_old_format`: split the file into
lines, strip each line, keep lines containing an equals sign, split them
at the first equals sign and strip both halves, accumulating into an
insertion-ordered dictionary. -/
def parseOldFormat (content : PyStr) : List (PyStr × PyStr) :=
  (splitOnChar '\n' content).foldl
    (fun acc line =>
      match splitFirstCh '=' (pyStrip line) with
      | some (k, v) => insertAssoc acc (pyStrip k) (pyStrip v)
      | none => acc)
    []

/-- Serialization of the legacy dictionary written back by
`set_version`: one KEY=VALUE line per entry, in dictionary order. -/
def serializeOld : List (PyStr × PyStr) → PyStr
  | [] => []
  | (k, v) :: t => k ++ '=' :: v ++ '\n' :: serializeOld t

/-- On-disk version store: either the structured VERSION.yaml document,
modelled by the optional version entry of each target section, or the
legacy flat VERSION file, modelled by its character content. -/
inductive VStore where
  | yaml (client server : Option (Option PyStr))
  | old (content : PyStr)
deriving DecidableEq, Repr

/-- Embedding of `VersionManager.get_version` for a loaded store: fetch
the version string of the target, treating a missing section, a missing
key or an empty value as the `ValueError` raised by the Python code. -/
def get_version (st : VStore) (target : PyStr) : Except VErr PyStr :=
  match st with
  | .yaml c s =>
    if target = clientT then
      match c with
      | some (some v) => if v = [] then .error .missingVersion else .ok v
      | _ => .error .missingVersion
    else if target = serverT then
      match s with
      | some (some v) => if v = [] then .error .missingVersion else .ok v
      | _ => .error .missingVersion
    else .error .unknownTarget
  | .old content =>
    match lookupAssoc (parseOldFormat content) (targetKey target) with
    | some v => if v = [] then .error .missingVersion else .ok v
    | none => .error .missingVersion

/-- Embedding of `VersionManager.set_version`: validate the version
string, then either update the structured document in place or update
the parsed legacy dictionary and serialize every entry back. -/
def set_version (st : VStore) (target version : PyStr) : Except VErr VStore :=
  if validate_version version then
    match st with
    | .yaml c s =>
      if target = clientT then .ok (.yaml (some (some version)) s)
      else if target = serverT then .ok (.yaml c (some (some version)))
      else .error .unknownTarget
    | .old content =>
      .ok (.old (serializeOld
        (insertAssoc (parseOldFormat content) (targetKey target) version)))
  else .error .invalidFormat

/-- Embedding of `VersionManager.bump_version` at the store level: read
the current version, compute the bumped string, persist it, and return
the new store together with the new version string. -/
def bump_version (st : VStore) (target kind : PyStr) :
    Except VErr (VStore × PyStr) := do
  let current ← get_version st target
  let nv ← bump_version_str current kind
  let st1 ← set_version st target nv
  .ok (st1, nv)

/-- Version keyword matched at line starts by the substitution pattern
of `VersionManager.sync_to_pubspec`. -/
def verKey : PyStr := ("version:").data

/-- Fixed part of the replacement text of the substitution. -/
def verRepl : PyStr := ("version: ").data

/-- Embedding of the MULTILINE substitution of
`VersionManager.sync_to_pubspec` over the newline-split lines of the
file.  The pattern anchors at line starts, its whitespace class also
matches newlines, its dot stops at newlines, and its dollar anchor
matches at a newline or at the end, so the greedy first attempt always
succeeds and each match covers: the keyword, then a maximal whitespace
run, then the remainder of the line that run ends in.  The Boolean
argument records being inside the whitespace run of a match that
crossed a newline: there, all-whitespace lines are consumed whole, and
the first line holding a non-whitespace character is consumed whole
(its leading whitespace by the whitespace class, its remainder by the
dot) and ends the match.  In normal mode, a line starting with the
keyword is replaced; when only whitespace follows the keyword, the
match crosses the newline and enters the consuming mode. -/
def reSubVersionLines (full : PyStr) : Bool → List PyStr → List PyStr
  | _, [] => []
  | true, l :: ls =>
    if l.all pySpace then reSubVersionLines full true ls
    else reSubVersionLines full false ls
  | false, l :: ls =>
    match dropStart verKey l with
    | none => l :: reSubVersionLines full false ls
    | some rlv =>
      if rlv.all pySpace then
        (verRepl ++ full) :: reSubVersionLines full true ls
      else
        (verRepl ++ full) :: reSubVersionLines full false ls

/-- Embedding of `VersionManager.sync_to_pubspec` with an explicit
path: the optional argument carries the content of the file at the
path, `none` when the file does not exist. -/
def sync_to_pubspec (st : VStore) (target : PyStr) (file : Option PyStr) :
    Except VErr PyStr := do
  let version ← get_version st target
  let (v, b) ← parse_version version
  let full := v ++ '+' :: b
  match file with
  | none => .error .notFound
  | some content =>
    .ok (joinChar '\n' (reSubVersionLines full false (splitOnChar '\n' content)))

/-! Embedding of scripts/convert_config_to_gitee.py. -/

/-- Platform entry of an update manifest: the download URL key, which
may be absent, and the remaining fields of the JSON object, carried
opaquely by the type parameter. -/
structure PlatformEntry (ρ : Type) where
  downloadUrl : Option PyStr
  rest : ρ
deriving DecidableEq, Repr

/-- Platforms object of the client section: the two recognized keys and
the remaining fields. -/
structure ClientPlatforms (ρ : Type) where
  macos : Option (PlatformEntry ρ)
  windows : Option (PlatformEntry ρ)
  rest : ρ
deriving DecidableEq, Repr

/-- Platforms object of the server section: the recognized key and the
remaining fields. -/
structure ServerPlatforms (ρ : Type) where
  android : Option (PlatformEntry ρ)
  rest : ρ
deriving DecidableEq, Repr

/-- Client section of an update manifest. -/
structure ClientSection (ρ : Type) where
  platforms : Option (ClientPlatforms ρ)
  rest : ρ
deriving DecidableEq, Repr

/-- Server section of an update manifest. -/
structure ServerSection (ρ : Type) where
  platforms : Option (ServerPlatforms ρ)
  rest : ρ
deriving DecidableEq, Repr

/-- Update manifest document, as far as the transcoder inspects it. -/
structure ConfigDoc (ρ : Type) where
  client : Option (ClientSection ρ)
  server : Option (ServerSection ρ)
  updateCheckUrl : Option PyStr
  rest : ρ
deriving DecidableEq, Repr

/-- Gitee download URL rebuilt from a tag and a file name, the image of
the f-string in the conversion script. -/
def giteeDownloadUrl (owner repo tag file : PyStr) : PyStr :=
  ("https://gitee.com/").data ++ owner ++ '/' :: repo
    ++ ("/releases/download/").data ++ tag ++ '/' :: file

/-- Gitee update-check URL with the fixed config release tag. -/
def giteeCheckUrl (owner repo : PyStr) : PyStr :=
  ("https://gitee.com/").data ++ owner ++ '/' :: repo
    ++ ("/releases/download/config/update_config_gitee.json").data

/-- GitHub release download URL built from its four components. -/
def githubDownloadUrl (owner repo tag file : PyStr) : PyStr :=
  ("https://github.com/").data ++ owner ++ '/' :: repo
    ++ ("/releases/download/").data ++ tag ++ '/' :: file

/-- Nonempty slash-free segment before the next slash, the behaviour of
one `([^/]+)/` group of the download-URL pattern. -/
def takeSegNE (cs : PyStr) : Option (PyStr × PyStr) :=
  match splitFirstCh '/' cs with
  | some (a, b) => if a = [] then none else some (a, b)
  | none => none

/-- Python `re.match` of the download-URL pattern of the conversion
script: literal scheme and host, two slash-delimited nonempty groups,
the literal releases/download path, a nonempty tag group, and a final
group of at least one character that cannot cross a newline. -/
def matchGithubUrl (u : PyStr) : Option (PyStr × PyStr × PyStr × PyStr) := do
  let r1 ← dropStart (("https://github.com/").data) u
  let (owner, r2) ← takeSegNE r1
  let (repo, r3) ← takeSegNE r2
  let r4 ← dropStart (("releases/download/").data) r3
  let (tag, r5) ← takeSegNE r4
  let file := r5.takeWhile (fun c => !(c == '\n'))
  if file = [] then none else some (owner, repo, tag, file)

/-- URL rewrite applied to a download URL already known to mention the
GitHub host: rebuild from the matched components with the new owner and
repo, or fall back to a verbatim host-substring replacement. -/
def rewriteDownloadUrl (owner repo u : PyStr) : PyStr :=
  match matchGithubUrl u with
  | some (_, _, tag, file) => giteeDownloadUrl owner repo tag file
  | none => replaceAll (("github.com").data) (("gitee.com").data) u

/-- Per-entry transformation of the conversion script: read the
download URL with an empty default, and only when it mentions the
GitHub host, store the rewritten URL back. -/
def convertPlat {ρ : Type} (owner repo : PyStr) (e : PlatformEntry ρ) :
    PlatformEntry ρ :=
  let u := e.downloadUrl.getD []
  if containsSub (("github.com").data) u then
    { e with downloadUrl := some (rewriteDownloadUrl owner repo u) }
  else e

/-- Embedding of `convert_to_gitee`: overwrite the update-check URL
unconditionally and rewrite the download URL of every recognized
platform entry that is present. -/
def convert_to_gitee {ρ : Type} (owner repo : PyStr) (c : ConfigDoc ρ) :
    ConfigDoc ρ :=
  { c with
    updateCheckUrl := some (giteeCheckUrl owner repo)
    client := c.client.map (fun cs =>
      { cs with platforms := cs.platforms.map (fun ps =>
          { ps with
            macos := ps.macos.map (convertPlat owner repo)
            windows := ps.windows.map (convertPlat owner repo) }) })
    server := c.server.map (fun ss =>
      { ss with platforms := ss.platforms.map (fun ps =>
          { ps with android := ps.android.map (convertPlat owner repo) }) }) }

/-! Embedding of scripts/generate_update_config.py. -/

/-- Final path segment, the behaviour of `os.path.basename` on the
POSIX slash-separated paths used by the pipeline. -/
def basename (p : PyStr) : PyStr :=
  (splitOnChar '/' p).getLastD []

/-- Embedding of `extract_version_number`: the part before the first
plus sign, or the whole string when no plus sign occurs. -/
def extract_version_number (full : PyStr) : PyStr :=
  match splitFirstCh '+' full with
  | some (v, _) => v
  | none => full

/-- Embedding of the inner `get_file_hash` helper: a supplied non-empty
hash dictionary is consulted first by exact path and then by bare file
name, and only on a double miss is the digest computed fresh from the
file at the path.  The digest routine is passed as a function so that
the cryptographic hash of the file bytes stays abstract. -/
def get_file_hash (fileHashes : Option (List (PyStr × PyStr)))
    (computeHash : PyStr → PyStr) (path name : PyStr) : PyStr :=
  match fileHashes with
  | some fh =>
    if fh = [] then computeHash path
    else
      match lookupAssoc fh path with
      | some h => h
      | none =>
        match lookupAssoc fh name with
        | some h => h
        | none => computeHash path
  | none => computeHash path

/-- Platform object emitted by the manifest generator. -/
structure GenPlatform where
  version : PyStr
  versionNumber : PyStr
  downloadUrl : PyStr
  fileName : PyStr
  fileType : PyStr
  platform : PyStr
  fileHash : PyStr
deriving DecidableEq, Repr

/-- Manifest document emitted by the manifest generator, with the
build timestamp supplied by the caller. -/
structure GenConfig where
  clientVersion : PyStr
  clientVersionNumber : PyStr
  macos : GenPlatform
  windows : GenPlatform
  android : GenPlatform
  serverVersion : PyStr
  serverVersionNumber : PyStr
  updateCheckUrl : PyStr
  lastUpdated : PyStr
deriving DecidableEq, Repr

/-- Embedding of `generate_update_config`: trim the versions, take the
base names of the three artifact paths, resolve the three digests, build
the backend download base URL and update-check URL unless overridden,
and assemble the manifest.  The current UTC instant is a parameter. -/
def generate_update_config (clientVersion serverVersion : PyStr)
    (macosFile windowsFile androidFile : PyStr)
    (tagVersion repoOwner repoName : PyStr)
    (baseUrl updateCheckUrl : Option PyStr) (repoType : PyStr)
    (fileHashes : Option (List (PyStr × PyStr)))
    (computeHash : PyStr → PyStr) (now : PyStr) : GenConfig :=
  let clientVersionNumber := extract_version_number clientVersion
  let serverVersionNumber := extract_version_number serverVersion
  let macosName := basename macosFile
  let windowsName := basename windowsFile
  let androidName := basename androidFile
  let macosHash := get_file_hash fileHashes computeHash macosFile macosName
  let windowsHash := get_file_hash fileHashes computeHash windowsFile windowsName
  let androidHash := get_file_hash fileHashes computeHash androidFile androidName
  let base :=
    match baseUrl with
    | some b => b
    | none =>
      if repoType = ("gitee").data then
        ("https://gitee.com/").data ++ repoOwner ++ '/' :: repoName
          ++ ("/releases/download/").data ++ tagVersion
      else
        ("https://github.com/").data ++ repoOwner ++ '/' :: repoName
          ++ ("/releases/download/").data ++ tagVersion
  let check :=
    match updateCheckUrl with
    | some u => u
    | none =>
      if repoType = ("gitee").data then
        ("https://gitee.com/").data ++ repoOwner ++ '/' :: repoName
          ++ ("/releases/download/config/update_config_gitee.json").data
      else
        ("https://github.com/").data ++ repoOwner ++ '/' :: repoName
          ++ ("/releases/download/UpdateConfig/update_config_github.json").data
  { clientVersion := clientVersion
    clientVersionNumber := clientVersionNumber
    macos :=
      { version := clientVersion
        versionNumber := clientVersionNumber
        downloadUrl := base ++ '/' :: macosName
        fileName := macosName
        fileType := ("zip").data
        platform := ("macos").data
        fileHash := macosHash }
    windows :=
      { version := clientVersion
        versionNumber := clientVersionNumber
        downloadUrl := base ++ '/' :: windowsName
        fileName := windowsName
        fileType := ("zip").data
        platform := ("windows").data
        fileHash := windowsHash }
    android :=
      { version := serverVersion
        versionNumber := serverVersionNumber
        downloadUrl := base ++ '/' :: androidName
        fileName := androidName
        fileType := ("zip").data
        platform := ("android").data
        fileHash := androidHash }
    serverVersion := serverVersion
    serverVersionNumber := serverVersionNumber
    updateCheckUrl := check
    lastUpdated := now }

/-! Embedding of scripts/calculate_file_hashes.py. -/

/-- Embedding of `calculate_hashes_for_directory`: the walked files are
given in walk order together with the outcome of hashing each one, an
outcome being a digest or a caught per-file exception.  Excluded files
are skipped and counted; failing files are skipped, counted separately,
and never abort the pass.  The result carries the mapping, the error
count and the skip count. -/
def calculate_hashes_for_directory :
    List (PyStr × Except Unit PyStr) → (PyStr → Bool) →
      List (PyStr × PyStr) × Nat × Nat
  | [], _ => ([], 0, 0)
  | (p, r) :: rest, excluded =>
    let prev := calculate_hashes_for_directory rest excluded
    if excluded p then (prev.1, prev.2.1, prev.2.2 + 1)
    else
      match r with
      | .ok h => ((p, h) :: prev.1, prev.2.1, prev.2.2)
      | .error _ => (prev.1, prev.2.1 + 1, prev.2.2)

/-- Embedding of the empty-result guard in `main`: an empty mapping
after a full scan exits with status 1, a non-empty mapping is kept. -/
def hashResultGate (m : List (PyStr × PyStr)) :
    Except Nat (List (PyStr × PyStr)) :=
  if m = [] then .error 1 else .ok m

/-! Character-level facts. -/

/-- Boolean disequality of a digit character with any non-digit. -/
theorem beq_false_of_isDigit {c d : Char} (h : c.isDigit = true)
    (hd : d.isDigit = false) : (c == d) = false := by
  cases hcd : c == d
  · rfl
  · exfalso
    have hcd2 : c = d := eq_of_beq hcd
    rw [hcd2, hd] at h
    exact Bool.noConfusion h

/-- Disequality of a digit character with any non-digit. -/
theorem ne_of_isDigit {c d : Char} (h : c.isDigit = true)
    (hd : d.isDigit = false) : c ≠ d := by
  intro he
  rw [he, hd] at h
  exact Bool.noConfusion h

/-- Digit characters are not Python whitespace. -/
theorem digit_not_space {c : Char} (h : c.isDigit = true) :
    pySpace c = false := by
  unfold pySpace
  rw [beq_false_of_isDigit h (by decide), beq_false_of_isDigit h (by decide),
    beq_false_of_isDigit h (by decide), beq_false_of_isDigit h (by decide),
    beq_false_of_isDigit h (by decide), beq_false_of_isDigit h (by decide)]
  rfl

/-- Unfolding of the nonempty-digit-string test. -/
theorem digitsNonempty_iff {cs : PyStr} :
    digitsNonempty cs = true ↔ cs ≠ [] ∧ ∀ c ∈ cs, c.isDigit = true := by
  unfold digitsNonempty
  rw [Bool.and_eq_true, List.all_eq_true]
  constructor
  · rintro ⟨h1, h2⟩
    refine ⟨?_, h2⟩
    intro he
    rw [he] at h1
    exact Bool.noConfusion h1
  · rintro ⟨h1, h2⟩
    refine ⟨?_, h2⟩
    cases hc : cs.isEmpty
    · rfl
    · exact absurd (List.isEmpty_iff.mp hc) h1

/-! Facts about stripping. -/

/-- Head of the output of `dropWhile` fails the predicate. -/
theorem dropWhile_head_false {p : Char → Bool} :
    ∀ {xs : PyStr} {c : Char}, (xs.dropWhile p).head? = some c → p c = false := by
  intro xs
  induction xs with
  | nil => intro c h; simp [List.dropWhile] at h
  | cons a t ih =>
    intro c h
    rw [List.dropWhile_cons] at h
    by_cases hpa : p a
    · rw [if_pos hpa] at h
      exact ih h
    · rw [if_neg hpa] at h
      have ha : a = c := by simpa using h
      rw [← ha]
      exact Bool.eq_false_iff.mpr hpa

/-- A list whose head fails the predicate survives `dropWhile`. -/
theorem dropWhile_eq_self_head {p : Char → Bool} {xs : PyStr}
    (h : ∀ c, xs.head? = some c → p c = false) : xs.dropWhile p = xs := by
  cases xs with
  | nil => rfl
  | cons a t =>
    rw [List.dropWhile_cons, if_neg]
    rw [h a rfl]
    exact Bool.noConfusion

/-- The output of `dropWhile` is a final segment of the input. -/
theorem dropWhile_suffix_ex {p : Char → Bool} (xs : PyStr) :
    ∃ u, u ++ xs.dropWhile p = xs := by
  induction xs with
  | nil => exact ⟨[], rfl⟩
  | cons a t ih =>
    by_cases hpa : p a
    · obtain ⟨u, hu⟩ := ih
      refine ⟨a :: u, ?_⟩
      rw [List.dropWhile_cons, if_pos hpa, List.cons_append, hu]
    · exact ⟨[], by rw [List.dropWhile_cons, if_neg hpa, List.nil_append]⟩

/-- A string with non-space ends is untouched by `pyStrip`. -/
theorem pyStrip_eq_self {xs : PyStr}
    (h1 : ∀ c, xs.head? = some c → pySpace c = false)
    (h2 : ∀ c, xs.getLast? = some c → pySpace c = false) : pyStrip xs = xs := by
  unfold pyStrip dropTrail
  rw [dropWhile_eq_self_head h1]
  rw [dropWhile_eq_self_head (fun c hc => h2 c (by rwa [List.head?_reverse] at hc))]
  exact List.reverse_reverse xs

/-- Members of the stripped string are members of the string. -/
theorem mem_pyStrip {c : Char} {xs : PyStr} (h : c ∈ pyStrip xs) : c ∈ xs := by
  unfold pyStrip dropTrail at h
  rw [List.mem_reverse] at h
  obtain ⟨u, hu⟩ := dropWhile_suffix_ex (p := pySpace) (xs.dropWhile pySpace).reverse
  have h2 : c ∈ (xs.dropWhile pySpace).reverse := by
    rw [← hu]
    exact List.mem_append_right u h
  rw [List.mem_reverse] at h2
  obtain ⟨u2, hu2⟩ := dropWhile_suffix_ex (p := pySpace) xs
  rw [← hu2]
  exact List.mem_append_right u2 h2

/-- Head of the stripped string is not whitespace. -/
theorem pyStrip_head {xs : PyStr} {c : Char}
    (h : (pyStrip xs).head? = some c) : pySpace c = false := by
  unfold pyStrip dropTrail at h
  obtain ⟨u, hu⟩ :=
    dropWhile_suffix_ex (p := pySpace) (xs.dropWhile pySpace).reverse
  cases hrev : ((xs.dropWhile pySpace).reverse.dropWhile pySpace).reverse with
  | nil => rw [hrev] at h; exact absurd h (by simp)
  | cons c0 rest =>
    rw [hrev] at h
    have hc0 : c0 = c := by simpa using h
    have hyd : xs.dropWhile pySpace = c0 :: rest ++ u.reverse := by
      have h3 := congrArg List.reverse hu
      rw [List.reverse_append, List.reverse_reverse] at h3
      rw [← h3, ← hrev]
    have hhy : (xs.dropWhile pySpace).head? = some c0 := by
      rw [hyd]; rfl
    rw [← hc0]
    exact dropWhile_head_false hhy

/-- Last character of the stripped string is not whitespace. -/
theorem pyStrip_last {xs : PyStr} {c : Char}
    (h : (pyStrip xs).getLast? = some c) : pySpace c = false := by
  unfold pyStrip dropTrail at h
  rw [List.getLast?_reverse] at h
  exact dropWhile_head_false h

/-- Stripping a nonempty digit string followed by one newline recovers
the digit string. -/
theorem pyStrip_digits_newline {t : PyStr} (hne : t ≠ [])
    (hd : ∀ c ∈ t, c.isDigit = true) : pyStrip (t ++ ['\n']) = t := by
  unfold pyStrip dropTrail
  have h1 : (t ++ ['\n']).dropWhile pySpace = t ++ ['\n'] := by
    apply dropWhile_eq_self_head
    intro c hc
    cases t with
    | nil => exact absurd rfl hne
    | cons a t2 =>
      have ha : a = c := by simpa using hc
      rw [← ha]
      exact digit_not_space (hd a (List.mem_cons_self a t2))
  rw [h1, List.reverse_append]
  have h2 : (['\n'] : PyStr).reverse = ['\n'] := rfl
  rw [h2]
  have h3 : ('\n' :: t.reverse).dropWhile pySpace = t.reverse.dropWhile pySpace := by
    rw [List.dropWhile_cons, if_pos (by decide)]
  rw [List.singleton_append, h3]
  have h4 : t.reverse.dropWhile pySpace = t.reverse := by
    apply dropWhile_eq_self_head
    intro c hc
    have hcm : c ∈ t.reverse := by
      cases hrv : t.reverse with
      | nil => rw [hrv] at hc; exact absurd hc (by simp)
      | cons b r =>
        rw [hrv] at hc
        have : b = c := by simpa using hc
        rw [← this]
        exact List.mem_cons_self b r
    exact digit_not_space (hd c (List.mem_reverse.mp hcm))
  rw [h4, List.reverse_reverse]

/-- Stripping a nonempty digit string is the identity. -/
theorem pyStrip_digits {t : PyStr} (hne : t ≠ [])
    (hd : ∀ c ∈ t, c.isDigit = true) : pyStrip t = t := by
  apply pyStrip_eq_self
  · intro c hc
    have : c ∈ t := by
      cases t with
      | nil => exact absurd hc (by simp)
      | cons a r =>
        have : a = c := by simpa using hc
        rw [← this]; exact List.mem_cons_self a r
    exact digit_not_space (hd c this)
  · intro c hc
    have : c ∈ t := List.mem_of_mem_getLast? hc
    exact digit_not_space (hd c this)

/-- Value of Python `int` on a nonempty digit string. -/
theorem pyInt_digits {t : PyStr} (h : digitsNonempty t = true) :
    pyInt t = some (digitsToNat t) := by
  obtain ⟨hne, hd⟩ := digitsNonempty_iff.mp h
  unfold pyInt
  rw [pyStrip_digits hne hd, if_pos h]

/-- Value of Python `int` on a nonempty digit string followed by one
newline, the shape produced by the trailing-newline leniency of the
anchored patterns. -/
theorem pyInt_digits_newline {t : PyStr} (h : digitsNonempty t = true) :
    pyInt (t ++ ['\n']) = some (digitsToNat t) := by
  obtain ⟨hne, hd⟩ := digitsNonempty_iff.mp h
  unfold pyInt
  rw [pyStrip_digits_newline hne hd, if_pos h]

/-! Facts about splitting and joining. -/

/-- Unfolding equation of `splitOnChar` on a nonempty string, with the
split of the tail supplied explicitly. -/
theorem splitOnChar_cons_eq (sep c : Char) (t g : PyStr) (gs : List PyStr)
    (hs : splitOnChar sep t = g :: gs) :
    splitOnChar sep (c :: t) =
      if c = sep then [] :: g :: gs else (c :: g) :: gs := by
  conv_lhs => unfold splitOnChar
  rw [hs]

/-- The split of a string is never the empty segment list. -/
theorem splitOnChar_ne_nil (sep : Char) (cs : PyStr) :
    splitOnChar sep cs ≠ [] := by
  induction cs with
  | nil => exact fun h => List.noConfusion h
  | cons c t ih =>
    cases hs : splitOnChar sep t with
    | nil => exact absurd hs ih
    | cons g gs =>
      rw [splitOnChar_cons_eq sep c t g gs hs]
      by_cases hc : c = sep
      · rw [if_pos hc]; exact fun h => List.noConfusion h
      · rw [if_neg hc]; exact fun h => List.noConfusion h

/-- A string free of the separator splits into itself alone. -/
theorem splitOnChar_no_sep {sep : Char} {cs : PyStr} (h : sep ∉ cs) :
    splitOnChar sep cs = [cs] := by
  induction cs with
  | nil => rfl
  | cons c t ih =>
    have hc : c ≠ sep := fun he => h (he ▸ List.mem_cons_self c t)
    have ht : sep ∉ t := fun hm => h (List.mem_cons_of_mem c hm)
    rw [splitOnChar_cons_eq sep c t t [] (ih ht), if_neg hc]

/-- Splitting past a separator-free initial segment peels it off. -/
theorem splitOnChar_append_cons {sep : Char} {xs : PyStr} (ys : PyStr)
    (h : sep ∉ xs) :
    splitOnChar sep (xs ++ sep :: ys) = xs :: splitOnChar sep ys := by
  induction xs with
  | nil =>
    rw [List.nil_append]
    cases hs : splitOnChar sep ys with
    | nil => exact absurd hs (splitOnChar_ne_nil sep ys)
    | cons g gs => rw [splitOnChar_cons_eq sep sep ys g gs hs, if_pos rfl]
  | cons c t ih =>
    have hc : c ≠ sep := fun he => h (he ▸ List.mem_cons_self c t)
    have ht : sep ∉ t := fun hm => h (List.mem_cons_of_mem c hm)
    rw [List.cons_append]
    cases hs : splitOnChar sep ys with
    | nil => exact absurd hs (splitOnChar_ne_nil sep ys)
    | cons g gs =>
      rw [hs] at ih
      rw [splitOnChar_cons_eq sep c (t ++ sep :: ys) t (g :: gs) (ih ht),
        if_neg hc]

/-- Splitting an explicit three-segment string with separator-free
segments yields exactly the three segments. -/
theorem splitOnChar_triple {sep : Char} {x y z : PyStr}
    (hx : sep ∉ x) (hy : sep ∉ y) (hz : sep ∉ z) :
    splitOnChar sep (x ++ sep :: (y ++ sep :: z)) = [x, y, z] := by
  rw [splitOnChar_append_cons (y ++ sep :: z) hx,
    splitOnChar_append_cons z hy, splitOnChar_no_sep hz]

/-- Joining undoes splitting. -/
theorem joinChar_splitOnChar (sep : Char) (cs : PyStr) :
    joinChar sep (splitOnChar sep cs) = cs := by
  induction cs with
  | nil => rfl
  | cons c t ih =>
    cases hs : splitOnChar sep t with
    | nil => exact absurd hs (splitOnChar_ne_nil sep t)
    | cons g gs =>
      rw [hs] at ih
      rw [splitOnChar_cons_eq sep c t g gs hs]
      by_cases hc : c = sep
      · rw [if_pos hc]
        cases gs with
        | nil =>
          show [] ++ sep :: joinChar sep [g] = c :: t
          rw [List.nil_append, show joinChar sep [g] = g from rfl]
          rw [show joinChar sep [g] = g from rfl] at ih
          rw [ih, hc]
        | cons g2 gs2 =>
          show [] ++ sep :: joinChar sep (g :: g2 :: gs2) = c :: t
          rw [List.nil_append, ih, hc]
      · rw [if_neg hc]
        cases gs with
        | nil =>
          show (c :: g) = c :: t
          rw [show joinChar sep [g] = g from rfl] at ih
          rw [ih]
        | cons g2 gs2 =>
          show (c :: g) ++ sep :: joinChar sep (g2 :: gs2) = c :: t
          rw [List.cons_append]
          have ih2 : g ++ sep :: joinChar sep (g2 :: gs2) = t := ih
          rw [ih2]

/-- Segments produced by splitting are free of the separator. -/
theorem splitOnChar_mem_no_sep {sep : Char} {cs : PyStr} {l : PyStr}
    (h : l ∈ splitOnChar sep cs) : sep ∉ l := by
  induction cs generalizing l with
  | nil =>
    have : l = [] := by simpa [splitOnChar] using h
    rw [this]
    exact List.not_mem_nil sep
  | cons c t ih =>
    cases hs : splitOnChar sep t with
    | nil => exact absurd hs (splitOnChar_ne_nil sep t)
    | cons g gs =>
      rw [splitOnChar_cons_eq sep c t g gs hs] at h
      by_cases hc : c = sep
      · rw [if_pos hc] at h
        rcases List.mem_cons.mp h with h1 | h2
        · rw [h1]; exact List.not_mem_nil sep
        · exact ih (hs ▸ h2)
      · rw [if_neg hc] at h
        rcases List.mem_cons.mp h with h1 | h2
        · rw [h1]
          intro hm
          rcases List.mem_cons.mp hm with h3 | h4
          · exact hc h3.symm
          · exact ih (hs ▸ List.mem_cons_self g gs) h4
        · exact ih (hs ▸ List.mem_cons_of_mem g h2)

/-- Splitting at the first separator past a separator-free initial
segment. -/
theorem splitFirstCh_append {sep : Char} {a : PyStr} (b : PyStr)
    (h : sep ∉ a) : splitFirstCh sep (a ++ sep :: b) = some (a, b) := by
  induction a with
  | nil =>
    rw [List.nil_append]
    unfold splitFirstCh
    rw [if_pos rfl]
  | cons c t ih =>
    have hc : c ≠ sep := fun he => h (he ▸ List.mem_cons_self c t)
    have ht : sep ∉ t := fun hm => h (List.mem_cons_of_mem c hm)
    rw [List.cons_append]
    unfold splitFirstCh
    rw [if_neg hc, ih ht]

/-- A separator-free string has no first-separator split. -/
theorem splitFirstCh_no_sep {sep : Char} {cs : PyStr} (h : sep ∉ cs) :
    splitFirstCh sep cs = none := by
  induction cs with
  | nil => rfl
  | cons c t ih =>
    have hc : c ≠ sep := fun he => h (he ▸ List.mem_cons_self c t)
    have ht : sep ∉ t := fun hm => h (List.mem_cons_of_mem c hm)
    unfold splitFirstCh
    rw [if_neg hc, ih ht]

/-- A plus-free string has no last-plus split. -/
theorem rsplitPlus_no_plus {cs : PyStr} (h : '+' ∉ cs) :
    rsplitPlus cs = none := by
  induction cs with
  | nil => rfl
  | cons c t ih =>
    have hc : c ≠ '+' := fun he => h (he ▸ List.mem_cons_self c t)
    have ht : '+' ∉ t := fun hm => h (List.mem_cons_of_mem c hm)
    unfold rsplitPlus
    rw [ih ht, if_neg hc]

/-- Splitting at the last plus sign of an explicit concatenation whose
right part is plus-free. -/
theorem rsplitPlus_append {b : PyStr} (a : PyStr) (hb : '+' ∉ b) :
    rsplitPlus (a ++ '+' :: b) = some (a, b) := by
  induction a with
  | nil =>
    rw [List.nil_append]
    unfold rsplitPlus
    rw [rsplitPlus_no_plus hb, if_pos rfl]
  | cons c t ih =>
    rw [List.cons_append]
    unfold rsplitPlus
    rw [ih]

/-- A string starts with itself followed by anything. -/
theorem startsL_append_self (p rest : PyStr) : startsL p (p ++ rest) = true := by
  induction p with
  | nil => rfl
  | cons c t ih =>
    rw [List.cons_append]
    unfold startsL
    rw [ih]
    simp

/-- Starting segments survive appending on the right. -/
theorem startsL_mono {n a : PyStr} (b : PyStr) (h : startsL n a = true) :
    startsL n (a ++ b) = true := by
  induction n generalizing a with
  | nil => rfl
  | cons c t ih =>
    cases a with
    | nil => exact absurd h (by unfold startsL; exact Bool.noConfusion)
    | cons a0 a1 =>
      unfold startsL at h ⊢
      rw [Bool.and_eq_true] at h
      rw [List.cons_append, Bool.and_eq_true]
      exact ⟨h.1, ih h.2⟩

/-- The empty needle is contained in every string. -/
theorem containsSub_nil_needle (hay : PyStr) : containsSub [] hay = true := by
  cases hay with
  | nil => rfl
  | cons c t =>
    unfold containsSub
    rw [Bool.or_eq_true]
    exact Or.inl rfl

/-- Substring containment survives appending on the right. -/
theorem containsSub_append_left {n a : PyStr} (b : PyStr)
    (h : containsSub n a = true) : containsSub n (a ++ b) = true := by
  induction a with
  | nil =>
    unfold containsSub at h
    cases n with
    | nil => rw [List.nil_append]; exact containsSub_nil_needle b
    | cons n0 n1 => exact absurd h (by unfold startsL; exact Bool.noConfusion)
  | cons a0 a1 ih =>
    unfold containsSub at h
    rw [Bool.or_eq_true] at h
    rw [List.cons_append]
    unfold containsSub
    rw [Bool.or_eq_true]
    rcases h with h1 | h2
    · exact Or.inl (by rw [← List.cons_append]; exact startsL_mono b h1)
    · exact Or.inr (ih h2)

/-- Removing an explicit initial segment. -/
theorem dropStart_append_self (p rest : PyStr) :
    dropStart p (p ++ rest) = some rest := by
  induction p with
  | nil => rfl
  | cons c t ih =>
    rw [List.cons_append]
    unfold dropStart
    rw [if_pos rfl, ih]

/-- Characters failing a property are absent from strings all of whose
characters satisfy it. -/
theorem not_mem_of_digits {d : Char} (hd : d.isDigit = false) {t : PyStr}
    (h : ∀ c ∈ t, c.isDigit = true) : d ∉ t := by
  intro hm
  rw [h d hm] at hd
  exact Bool.noConfusion hd

/-! Facts about association lists. -/

/-- Lookup of the freshly inserted key. -/
theorem lookupAssoc_insert (a : List (PyStr × PyStr)) (k v : PyStr) :
    lookupAssoc (insertAssoc a k v) k = some v := by
  induction a with
  | nil => unfold insertAssoc lookupAssoc; rw [if_pos rfl]
  | cons p t ih =>
    obtain ⟨k0, v0⟩ := p
    unfold insertAssoc
    by_cases hk : k0 = k
    · rw [if_pos hk]
      unfold lookupAssoc
      rw [if_pos hk]
    · rw [if_neg hk]
      unfold lookupAssoc
      rw [if_neg hk]
      exact ih

/-- Lookup of any other key is unchanged by insertion. -/
theorem lookupAssoc_insert_ne (a : List (PyStr × PyStr)) (k v k1 : PyStr)
    (h : k1 ≠ k) :
    lookupAssoc (insertAssoc a k v) k1 = lookupAssoc a k1 := by
  induction a with
  | nil =>
    unfold insertAssoc lookupAssoc
    rw [if_neg (fun he => h he.symm)]
    rfl
  | cons p t ih =>
    obtain ⟨k0, v0⟩ := p
    unfold insertAssoc
    by_cases hk : k0 = k
    · rw [if_pos hk]
      unfold lookupAssoc
      rw [if_neg (fun he => h (hk ▸ he).symm), if_neg (fun he => h (hk ▸ he).symm)]
    · rw [if_neg hk]
      unfold lookupAssoc
      by_cases hk1 : k0 = k1
      · rw [if_pos hk1, if_pos hk1]
      · rw [if_neg hk1, if_neg hk1]
        exact ih

/-- Inserting a fresh key appends the pair at the end. -/
theorem insertAssoc_fresh {a : List (PyStr × PyStr)} {k : PyStr} (v : PyStr)
    (h : ∀ p ∈ a, p.1 ≠ k) : insertAssoc a k v = a ++ [(k, v)] := by
  induction a with
  | nil => rfl
  | cons p t ih =>
    obtain ⟨k0, v0⟩ := p
    unfold insertAssoc
    rw [if_neg (h (k0, v0) (List.mem_cons_self _ t))]
    rw [ih (fun q hq => h q (List.mem_cons_of_mem _ hq))]
    rfl

/-- Every pair of the output of an insertion is the inserted pair or a
pair of the input. -/
theorem mem_insertAssoc {a : List (PyStr × PyStr)} {k v : PyStr}
    {q : PyStr × PyStr} (h : q ∈ insertAssoc a k v) :
    q ∈ a ∨ q.1 = k ∧ q.2 = v := by
  induction a with
  | nil =>
    unfold insertAssoc at h
    rcases List.mem_cons.mp h with h1 | h2
    · exact Or.inr (by rw [h1]; exact ⟨rfl, rfl⟩)
    · exact absurd h2 (List.not_mem_nil q)
  | cons p t ih =>
    obtain ⟨k0, v0⟩ := p
    unfold insertAssoc at h
    by_cases hk : k0 = k
    · rw [if_pos hk] at h
      rcases List.mem_cons.mp h with h1 | h2
      · exact Or.inr (by rw [h1, hk]; exact ⟨rfl, rfl⟩)
      · exact Or.inl (List.mem_cons_of_mem _ h2)
    · rw [if_neg hk] at h
      rcases List.mem_cons.mp h with h1 | h2
      · exact Or.inl (by rw [h1]; exact List.mem_cons_self _ t)
      · rcases ih h2 with h3 | h4
        · exact Or.inl (List.mem_cons_of_mem _ h3)
        · exact Or.inr h4

/-- Keys of the output of an insertion. -/
theorem keys_insertAssoc {a : List (PyStr × PyStr)} (k v : PyStr) :
    ((insertAssoc a k v).map Prod.fst) = a.map Prod.fst ∨
      ((insertAssoc a k v).map Prod.fst) = a.map Prod.fst ++ [k] := by
  induction a with
  | nil => exact Or.inr rfl
  | cons p t ih =>
    obtain ⟨k0, v0⟩ := p
    unfold insertAssoc
    by_cases hk : k0 = k
    · rw [if_pos hk]
      exact Or.inl rfl
    · rw [if_neg hk]
      rcases ih with h1 | h2
      · exact Or.inl (by rw [List.map_cons, List.map_cons, h1])
      · exact Or.inr (by rw [List.map_cons, List.map_cons, h2]; rfl)

/-- Insertion preserves distinctness of keys. -/
theorem nodup_insertAssoc {a : List (PyStr × PyStr)} {k : PyStr} (v : PyStr)
    (h : (a.map Prod.fst).Nodup) :
    ((insertAssoc a k v).map Prod.fst).Nodup := by
  induction a with
  | nil => simp [insertAssoc]
  | cons p t ih =>
    obtain ⟨k0, v0⟩ := p
    rw [List.map_cons, List.nodup_cons] at h
    unfold insertAssoc
    by_cases hk : k0 = k
    · rw [if_pos hk, List.map_cons, List.nodup_cons]
      exact h
    · rw [if_neg hk, List.map_cons, List.nodup_cons]
      refine ⟨?_, ih h.2⟩
      intro hmem
      rcases keys_insertAssoc (a := t) k v with h1 | h2
      · rw [h1] at hmem
        exact h.1 hmem
      · rw [h2] at hmem
        rcases List.mem_append.mp hmem with h3 | h4
        · exact h.1 h3
        · exact hk (by simpa using h4)

/-! Facts about decimal digit strings of natural numbers. -/

/-- Unfolding equation of the fuelled digit accumulator at positive
fuel. -/
theorem toDigitsCore_succ (f n : Nat) (ds : List Char) :
    Nat.toDigitsCore 10 (f + 1) n ds =
      if n / 10 = 0 then Nat.digitChar (n % 10) :: ds
      else Nat.toDigitsCore 10 f (n / 10) (Nat.digitChar (n % 10) :: ds) := rfl

/-- Digit characters emitted for remainders below ten are decimal
digits. -/
theorem digitChar_isDigit {n : Nat} (h : n < 10) :
    (Nat.digitChar n).isDigit = true := by
  interval_cases n <;> decide

/-- Every character accumulated by the digit printer on digit seed data
is a decimal digit. -/
theorem toDigitsCore_digits :
    ∀ (fuel n : Nat) (ds : List Char), (∀ c ∈ ds, c.isDigit = true) →
      ∀ c ∈ Nat.toDigitsCore 10 fuel n ds, c.isDigit = true := by
  intro fuel
  induction fuel with
  | zero => intro n ds hds c hc; exact hds c hc
  | succ f ih =>
    intro n ds hds c hc
    have hd : (Nat.digitChar (n % 10)).isDigit = true :=
      digitChar_isDigit (Nat.mod_lt n (by decide))
    rw [toDigitsCore_succ] at hc
    by_cases hdiv : n / 10 = 0
    · rw [if_pos hdiv] at hc
      rcases List.mem_cons.mp hc with h1 | h2
      · rw [h1]; exact hd
      · exact hds c h2
    · rw [if_neg hdiv] at hc
      refine ih (n / 10) (Nat.digitChar (n % 10) :: ds) ?_ c hc
      intro c2 hc2
      rcases List.mem_cons.mp hc2 with h1 | h2
      · rw [h1]; exact hd
      · exact hds c2 h2

/-- The accumulator never shrinks. -/
theorem toDigitsCore_length_ge :
    ∀ (fuel n : Nat) (ds : List Char),
      ds.length ≤ (Nat.toDigitsCore 10 fuel n ds).length := by
  intro fuel
  induction fuel with
  | zero => intro n ds; exact Nat.le_refl _
  | succ f ih =>
    intro n ds
    rw [toDigitsCore_succ]
    by_cases hdiv : n / 10 = 0
    · rw [if_pos hdiv]
      exact Nat.le_succ_of_le (Nat.le_refl _)
    · rw [if_neg hdiv]
      exact Nat.le_trans (Nat.le_succ _) (ih (n / 10) (Nat.digitChar (n % 10) :: ds))

/-- Decimal digit strings of naturals are all decimal digits. -/
theorem natToDigits_digits (n : Nat) : ∀ c ∈ natToDigits n, c.isDigit = true :=
  toDigitsCore_digits (n + 1) n [] (fun c hc => absurd hc (List.not_mem_nil c))

/-- Decimal digit strings of naturals are nonempty. -/
theorem natToDigits_ne_nil (n : Nat) : natToDigits n ≠ [] := by
  unfold natToDigits Nat.toDigits
  rw [toDigitsCore_succ]
  by_cases hdiv : n / 10 = 0
  · rw [if_pos hdiv]
    exact List.cons_ne_nil _ _
  · rw [if_neg hdiv]
    intro he
    have h1 := toDigitsCore_length_ge n (n / 10) [Nat.digitChar (n % 10)]
    rw [he] at h1
    simp at h1

/-- Decimal digit strings of naturals pass the digit-string test. -/
theorem digitsNonempty_natToDigits (n : Nat) :
    digitsNonempty (natToDigits n) = true :=
  digitsNonempty_iff.mpr ⟨natToDigits_ne_nil n, natToDigits_digits n⟩

/-! Facts about the version patterns. -/

/-- Decomposition of a string accepted by the strict three-number
pattern. -/
theorem matchTriple_elim {v : PyStr} (h : matchTriple v = true) :
    ∃ x y z, splitOnChar '.' v = [x, y, z] ∧ v = x ++ '.' :: (y ++ '.' :: z) ∧
      digitsNonempty x = true ∧ digitsNonempty y = true ∧
        digitsNonempty z = true := by
  unfold matchTriple at h
  split at h
  next x y z heq =>
    rw [Bool.and_eq_true, Bool.and_eq_true] at h
    refine ⟨x, y, z, heq, ?_, h.1.1, h.1.2, h.2⟩
    have hv := joinChar_splitOnChar '.' v
    rw [heq] at hv
    rw [← hv]
    rfl
  next _ =>
    exact absurd h Bool.noConfusion

/-- Introduction rule of the strict three-number pattern on an explicit
three-segment string. -/
theorem matchTriple_intro {x y z : PyStr} (hx : digitsNonempty x = true)
    (hy : digitsNonempty y = true) (hz : digitsNonempty z = true) :
    matchTriple (x ++ '.' :: (y ++ '.' :: z)) = true := by
  unfold matchTriple
  rw [splitOnChar_triple (not_mem_of_digits (by decide) (digitsNonempty_iff.mp hx).2)
    (not_mem_of_digits (by decide) (digitsNonempty_iff.mp hy).2)
    (not_mem_of_digits (by decide) (digitsNonempty_iff.mp hz).2)]
  show (digitsNonempty x && digitsNonempty y && digitsNonempty z) = true
  rw [hx, hy, hz]
  rfl

/-- Normal form of the bumped version string with the plus split off. -/
theorem verStr_eq (a b c d : Nat) :
    verStr a b c d =
      (natToDigits a ++ '.' :: (natToDigits b ++ '.' :: natToDigits c))
        ++ '+' :: natToDigits d := by
  unfold verStr
  simp [List.append_assoc, List.cons_append]

/-- The bumped version string always satisfies the strict full
grammar. -/
theorem strict_verStr (a b c d : Nat) :
    strictVersionGrammar (verStr a b c d) = true := by
  unfold strictVersionGrammar
  rw [verStr_eq,
    rsplitPlus_append _ (not_mem_of_digits (by decide) (natToDigits_digits d))]
  show (matchTriple (natToDigits a ++ '.' :: (natToDigits b ++ '.' :: natToDigits c))
    && digitsNonempty (natToDigits d)) = true
  rw [matchTriple_intro (digitsNonempty_natToDigits a)
    (digitsNonempty_natToDigits b) (digitsNonempty_natToDigits c),
    digitsNonempty_natToDigits d]
  rfl

/-- The bumped version string always passes `validate_version`. -/
theorem validate_verStr (a b c d : Nat) :
    validate_version (verStr a b c d) = true := by
  unfold validate_version
  rw [strict_verStr]
  rfl

/-! Facts about `parse_version` and the bump computation. -/

/-- Unfolding equation of `parse_version` when no plus sign occurs. -/
theorem parse_version_eq_none (s : PyStr) (hr : rsplitPlus s = none) :
    parse_version s =
      if pyMatchTriple s = true then .ok (s, ['1'])
      else .error .invalidFormat := by
  unfold parse_version
  rw [hr]

/-- Unfolding equation of `parse_version` at the last plus sign. -/
theorem parse_version_eq_some (s v0 b0 : PyStr)
    (hr : rsplitPlus s = some (v0, b0)) :
    parse_version s =
      if pyMatchTriple v0 = true then
        .ok (v0, if digitsNonempty b0 = true then b0 else ['1'])
      else .error .invalidFormat := by
  unfold parse_version
  rw [hr]

/-- Successful parses deliver an accepted version part and a digit
build part. -/
theorem parse_version_ok_shape {s v b : PyStr}
    (h : parse_version s = .ok (v, b)) :
    pyMatchTriple v = true ∧ digitsNonempty b = true := by
  cases hr : rsplitPlus s with
  | none =>
    rw [parse_version_eq_none s hr] at h
    by_cases hm : pyMatchTriple s = true
    · rw [if_pos hm] at h
      simp only [Except.ok.injEq, Prod.mk.injEq] at h
      obtain ⟨hsv, hb⟩ := h
      constructor
      · rw [← hsv]; exact hm
      · rw [← hb]; decide
    · rw [if_neg hm] at h
      exact absurd h (fun he => Except.noConfusion he)
  | some p =>
    obtain ⟨v0, b0⟩ := p
    rw [parse_version_eq_some s v0 b0 hr] at h
    by_cases hm : pyMatchTriple v0 = true
    · rw [if_pos hm] at h
      simp only [Except.ok.injEq, Prod.mk.injEq] at h
      obtain ⟨hv, hb⟩ := h
      constructor
      · rw [← hv]; exact hm
      · rw [← hb]
        by_cases hd : digitsNonempty b0 = true
        · rw [if_pos hd]; exact hd
        · rw [if_neg hd]; decide
    · rw [if_neg hm] at h
      exact absurd h (fun he => Except.noConfusion he)

/-- A version part accepted by the three-number pattern, including the
trailing-newline leniency, splits into three components, each accepted
by Python `int`. -/
theorem pyMatchTriple_ints {v : PyStr} (h : pyMatchTriple v = true) :
    ∃ x y z nx ny nz, splitOnChar '.' v = [x, y, z] ∧
      pyInt x = some nx ∧ pyInt y = some ny ∧ pyInt z = some nz := by
  unfold pyMatchTriple at h
  rw [Bool.or_eq_true] at h
  rcases h with h1 | h2
  · obtain ⟨x, y, z, hs, _, hx, hy, hz⟩ := matchTriple_elim h1
    exact ⟨x, y, z, digitsToNat x, digitsToNat y, digitsToNat z, hs,
      pyInt_digits hx, pyInt_digits hy, pyInt_digits hz⟩
  · rw [Bool.and_eq_true] at h2
    obtain ⟨hlast, hm⟩ := h2
    have hlast2 : v.getLast? = some '\n' := eq_of_beq hlast
    have hne : v ≠ [] := by
      intro he
      rw [he] at hlast2
      exact Option.noConfusion hlast2
    have hglast : v.getLast hne = '\n' := by
      have h3 := List.getLast?_eq_getLast v hne
      rw [hlast2] at h3
      exact (Option.some.injEq .. ▸ h3).symm
    have hv : v.dropLast ++ ['\n'] = v := by
      have h4 := List.dropLast_append_getLast hne
      rw [hglast] at h4
      exact h4
    obtain ⟨x, y, z, _, hdrop, hx, hy, hz⟩ := matchTriple_elim hm
    have hvshape : v = x ++ '.' :: (y ++ '.' :: (z ++ ['\n'])) := by
      rw [← hv, hdrop]
      simp [List.append_assoc]
    have hzn : ('.' : Char) ∉ z ++ ['\n'] := by
      intro hmem
      rcases List.mem_append.mp hmem with h5 | h6
      · exact not_mem_of_digits (by decide) (digitsNonempty_iff.mp hz).2 h5
      · simp at h6
    refine ⟨x, y, z ++ ['\n'], digitsToNat x, digitsToNat y, digitsToNat z, ?_,
      pyInt_digits hx, pyInt_digits hy, pyInt_digits_newline hz⟩
    rw [hvshape]
    exact splitOnChar_triple
      (not_mem_of_digits (by decide) (digitsNonempty_iff.mp hx).2)
      (not_mem_of_digits (by decide) (digitsNonempty_iff.mp hy).2) hzn

/-- Unfolding equation of the bump computation once the parse result,
the component split and the numeric conversions are supplied. -/
theorem bump_version_str_eq {s v b x y z : PyStr} {nx ny nz nb : Nat}
    (hp : parse_version s = .ok (v, b)) (hs : splitOnChar '.' v = [x, y, z])
    (hx : pyInt x = some nx) (hy : pyInt y = some ny) (hz : pyInt z = some nz)
    (hb : pyInt b = some nb) (kind : PyStr) :
    bump_version_str s kind =
      if kind = ("major").data then .ok (verStr (nx + 1) 0 0 nb)
      else if kind = ("minor").data then .ok (verStr nx (ny + 1) 0 nb)
      else if kind = ("patch").data then .ok (verStr nx ny (nz + 1) nb)
      else if kind = ("build").data then .ok (verStr nx ny nz (nb + 1))
      else .error .unknownBumpKind := by
  unfold bump_version_str
  rw [hp]
  show (match splitOnChar '.' v with
    | [xs, ys, zs] =>
      match pyInt xs, pyInt ys, pyInt zs, pyInt b with
      | some major, some minor, some patch, some build =>
        if kind = ("major").data then
          Except.ok (verStr (major + 1) 0 0 build)
        else if kind = ("minor").data then
          Except.ok (verStr major (minor + 1) 0 build)
        else if kind = ("patch").data then
          Except.ok (verStr major minor (patch + 1) build)
        else if kind = ("build").data then
          Except.ok (verStr major minor patch (build + 1))
        else Except.error VErr.unknownBumpKind
      | _, _, _, _ => Except.error VErr.valueError
    | _ => Except.error VErr.valueError) = _
  rw [hs]
  show (match pyInt x, pyInt y, pyInt z, pyInt b with
    | some major, some minor, some patch, some build =>
      if kind = ("major").data then
        Except.ok (verStr (major + 1) 0 0 build)
      else if kind = ("minor").data then
        Except.ok (verStr major (minor + 1) 0 build)
      else if kind = ("patch").data then
        Except.ok (verStr major minor (patch + 1) build)
      else if kind = ("build").data then
        Except.ok (verStr major minor patch (build + 1))
      else Except.error VErr.unknownBumpKind
    | _, _, _, _ => Except.error VErr.valueError) = _
  rw [hx, hy, hz, hb]

/-! Round trip of the legacy flat format. -/

/-- Well-formedness of one parsed legacy entry: the key holds no equals
sign and no newline, the value holds no newline, and both are already
stripped at the ends. -/
def wfEntry (k v : PyStr) : Prop :=
  ('=' ∉ k) ∧ ('\n' ∉ k) ∧ ('\n' ∉ v) ∧
    (∀ c, k.head? = some c → pySpace c = false) ∧
    (∀ c, k.getLast? = some c → pySpace c = false) ∧
    (∀ c, v.head? = some c → pySpace c = false) ∧
    (∀ c, v.getLast? = some c → pySpace c = false)

/-- Well-formedness of a parsed legacy dictionary: every entry is
well-formed and the keys are distinct. -/
def wfAssoc (a : List (PyStr × PyStr)) : Prop :=
  (∀ p ∈ a, wfEntry p.1 p.2) ∧ (a.map Prod.fst).Nodup

/-- Decomposition delivered by a successful first-separator split. -/
theorem splitFirstCh_eq_append {sep : Char} :
    ∀ {cs a b : PyStr}, splitFirstCh sep cs = some (a, b) →
      cs = a ++ sep :: b ∧ sep ∉ a := by
  intro cs
  induction cs with
  | nil => intro a b h; exact absurd h (by unfold splitFirstCh; simp)
  | cons c t ih =>
    intro a b h
    unfold splitFirstCh at h
    by_cases hc : c = sep
    · rw [if_pos hc] at h
      simp only [Option.some.injEq, Prod.mk.injEq] at h
      obtain ⟨h1, h2⟩ := h
      rw [← h1, ← h2, hc]
      exact ⟨rfl, List.not_mem_nil sep⟩
    · rw [if_neg hc] at h
      cases ht : splitFirstCh sep t with
      | none => rw [ht] at h; exact absurd h (by simp)
      | some p =>
        obtain ⟨a0, b0⟩ := p
        rw [ht] at h
        simp only [Option.some.injEq, Prod.mk.injEq] at h
        obtain ⟨h1, h2⟩ := h
        obtain ⟨h3, h4⟩ := ih ht
        constructor
        · rw [← h1, ← h2, h3]
          rfl
        · rw [← h1]
          intro hm
          rcases List.mem_cons.mp hm with h5 | h6
          · exact hc h5.symm
          · exact h4 h6

/-- A well-formed key-value line survives stripping. -/
theorem pyStrip_line_eq {k v : PyStr} (hw : wfEntry k v) :
    pyStrip (k ++ '=' :: v) = k ++ '=' :: v := by
  obtain ⟨_, _, _, hkh, _, _, hvl⟩ := hw
  apply pyStrip_eq_self
  · intro c hc
    cases k with
    | nil =>
      have : ('=' : Char) = c := by simpa using hc
      rw [← this]
      decide
    | cons a t =>
      have : a = c := by simpa using hc
      exact hkh c (by rw [← this]; rfl)
  · intro c hc
    cases hv : v with
    | nil =>
      rw [hv] at hc
      have h1 : (k ++ ['=']).getLast? = some '=' := List.getLast?_concat k
      rw [h1] at hc
      have : ('=' : Char) = c := by simpa using hc
      rw [← this]
      decide
    | cons v0 v1 =>
      rw [hv] at hc
      rw [List.getLast?_append_of_ne_nil k (List.cons_ne_nil '=' (v0 :: v1))] at hc
      apply hvl c
      rw [hv]
      rw [show ('=' :: v0 :: v1 : PyStr) = ['='] ++ v0 :: v1 from rfl] at hc
      rw [List.getLast?_append_of_ne_nil ['='] (List.cons_ne_nil v0 v1)] at hc
      exact hc

/-- Strings stripped at both ends are untouched by a second strip. -/
theorem wfEntry_of_strip {k0 v0 line : PyStr} (hline : ('\n' : Char) ∉ line)
    (hsplit : splitFirstCh '=' (pyStrip line) = some (k0, v0)) :
    wfEntry (pyStrip k0) (pyStrip v0) := by
  obtain ⟨heq, hknoeq⟩ := splitFirstCh_eq_append hsplit
  have hk0 : ∀ c ∈ k0, c ∈ line := by
    intro c hc
    apply mem_pyStrip
    rw [heq]
    exact List.mem_append_left _ hc
  have hv0 : ∀ c ∈ v0, c ∈ line := by
    intro c hc
    apply mem_pyStrip
    rw [heq]
    exact List.mem_append_right _ (List.mem_cons_of_mem '=' hc)
  refine ⟨?_, ?_, ?_, ?_, ?_, ?_, ?_⟩
  · intro hm
    exact hknoeq (mem_pyStrip hm)
  · intro hm
    exact hline (hk0 '\n' (mem_pyStrip hm))
  · intro hm
    exact hline (hv0 '\n' (mem_pyStrip hm))
  · exact fun c hc => pyStrip_head hc
  · exact fun c hc => pyStrip_last hc
  · exact fun c hc => pyStrip_head hc
  · exact fun c hc => pyStrip_last hc

/-- Insertion of a well-formed entry preserves dictionary
well-formedness. -/
theorem wfAssoc_insert {a : List (PyStr × PyStr)} {k v : PyStr}
    (ha : wfAssoc a) (hkv : wfEntry k v) : wfAssoc (insertAssoc a k v) := by
  constructor
  · intro p hp
    rcases mem_insertAssoc hp with h1 | h2
    · exact ha.1 p h1
    · obtain ⟨h3, h4⟩ := h2
      obtain ⟨p1, p2⟩ := p
      simp only at h3 h4
      rw [h3, h4]
      exact hkv
  · exact nodup_insertAssoc v ha.2

/-- One step of the legacy parser preserves well-formedness. -/
theorem parseStep_wf {acc : List (PyStr × PyStr)} {line : PyStr}
    (ha : wfAssoc acc) (hline : ('\n' : Char) ∉ line) :
    wfAssoc (match splitFirstCh '=' (pyStrip line) with
      | some (k, v) => insertAssoc acc (pyStrip k) (pyStrip v)
      | none => acc) := by
  cases hsplit : splitFirstCh '=' (pyStrip line) with
  | none => exact ha
  | some p =>
    obtain ⟨k0, v0⟩ := p
    exact wfAssoc_insert ha (wfEntry_of_strip hline hsplit)

/-- The legacy parser always produces a well-formed dictionary. -/
theorem parseOldFormat_wf (content : PyStr) : wfAssoc (parseOldFormat content) := by
  unfold parseOldFormat
  have hgen : ∀ (lines : List PyStr) (acc : List (PyStr × PyStr)),
      wfAssoc acc → (∀ l ∈ lines, ('\n' : Char) ∉ l) →
      wfAssoc (lines.foldl
        (fun acc line =>
          match splitFirstCh '=' (pyStrip line) with
          | some (k, v) => insertAssoc acc (pyStrip k) (pyStrip v)
          | none => acc)
        acc) := by
    intro lines
    induction lines with
    | nil => intro acc ha _; exact ha
    | cons l ls ih =>
      intro acc ha hl
      rw [List.foldl_cons]
      exact ih _ (parseStep_wf ha (hl l (List.mem_cons_self l ls)))
        (fun l2 hl2 => hl l2 (List.mem_cons_of_mem l hl2))
  exact hgen _ [] ⟨fun p hp => absurd hp (List.not_mem_nil p), List.nodup_nil⟩
    (fun l hl => splitOnChar_mem_no_sep hl)

/-- Reparsing a serialized well-formed dictionary recovers it, with the
parser accumulator generalized. -/
theorem foldl_parse_serialize :
    ∀ (a acc : List (PyStr × PyStr)),
      (∀ p ∈ a, wfEntry p.1 p.2) → (a.map Prod.fst).Nodup →
      (∀ p ∈ a, p.1 ∉ acc.map Prod.fst) →
      (splitOnChar '\n' (serializeOld a)).foldl
        (fun acc line =>
          match splitFirstCh '=' (pyStrip line) with
          | some (k, v) => insertAssoc acc (pyStrip k) (pyStrip v)
          | none => acc)
        acc = acc ++ a := by
  intro a
  induction a with
  | nil =>
    intro acc _ _ _
    rw [show serializeOld [] = [] from rfl, show splitOnChar '\n' [] = [[]] from rfl,
      List.foldl_cons, List.foldl_nil, List.append_nil]
    rfl
  | cons p rest ih =>
    intro acc hwf hnodup hfresh
    obtain ⟨k, v⟩ := p
    have hw : wfEntry k v := hwf (k, v) (List.mem_cons_self _ rest)
    obtain ⟨hkeq, hknl, hvnl, hkh, hkl, hvh, hvl⟩ := hw
    have hshape : serializeOld ((k, v) :: rest) =
        (k ++ '=' :: v) ++ '\n' :: serializeOld rest := by
      simp [serializeOld, List.append_assoc]
    have hnnl : ('\n' : Char) ∉ k ++ '=' :: v := by
      intro hm
      rcases List.mem_append.mp hm with h1 | h2
      · exact hknl h1
      · rcases List.mem_cons.mp h2 with h3 | h4
        · exact absurd h3 (by decide)
        · exact hvnl h4
    rw [hshape, splitOnChar_append_cons _ hnnl, List.foldl_cons]
    have hk_not_acc : k ∉ acc.map Prod.fst :=
      hfresh (k, v) (List.mem_cons_self _ rest)
    have hstep : (match splitFirstCh '=' (pyStrip (k ++ '=' :: v)) with
        | some (k2, v2) => insertAssoc acc (pyStrip k2) (pyStrip v2)
        | none => acc) = acc ++ [(k, v)] := by
      rw [pyStrip_line_eq ⟨hkeq, hknl, hvnl, hkh, hkl, hvh, hvl⟩,
        splitFirstCh_append v hkeq]
      show insertAssoc acc (pyStrip k) (pyStrip v) = acc ++ [(k, v)]
      rw [pyStrip_eq_self hkh hkl, pyStrip_eq_self hvh hvl]
      exact insertAssoc_fresh v
        (fun q hq he => hk_not_acc (he ▸ List.mem_map_of_mem Prod.fst hq))
    rw [hstep]
    rw [List.map_cons, List.nodup_cons] at hnodup
    have hres := ih (acc ++ [(k, v)])
      (fun q hq => hwf q (List.mem_cons_of_mem _ hq))
      hnodup.2
      (by
        intro q hq hm
        rw [List.map_append] at hm
        rcases List.mem_append.mp hm with h1 | h2
        · exact hfresh q (List.mem_cons_of_mem _ hq) h1
        · have hqk : q.1 = k := by simpa using h2
          have hqmem := List.mem_map_of_mem Prod.fst hq
          rw [hqk] at hqmem
          exact hnodup.1 hqmem)
    rw [hres]
    simp [List.append_assoc]

/-- Reparsing a serialized well-formed dictionary recovers it. -/
theorem parse_serializeOld {a : List (PyStr × PyStr)} (h : wfAssoc a) :
    parseOldFormat (serializeOld a) = a := by
  unfold parseOldFormat
  rw [foldl_parse_serialize a [] h.1 h.2
    (fun p _ hm => absurd hm (List.not_mem_nil p.1))]
  rfl

/-! Facts about strictly valid version strings and the store round
trip. -/

/-- A failed last-plus split means no plus sign occurs. -/
theorem rsplitPlus_none_no_plus :
    ∀ {t : PyStr}, rsplitPlus t = none → ('+' : Char) ∉ t := by
  intro t
  induction t with
  | nil => intro _ hm; exact absurd hm (List.not_mem_nil _)
  | cons c2 t2 ih =>
    intro ht hm
    unfold rsplitPlus at ht
    cases ht2 : rsplitPlus t2 with
    | some p2 => rw [ht2] at ht; exact Option.noConfusion ht
    | none =>
      rw [ht2] at ht
      by_cases hc2 : c2 = '+'
      · rw [if_pos hc2] at ht; exact Option.noConfusion ht
      · rw [if_neg hc2] at ht
        rcases List.mem_cons.mp hm with h5 | h6
        · exact hc2 h5.symm
        · exact ih ht2 h6

/-- Decomposition delivered by a successful last-plus split. -/
theorem rsplitPlus_eq_append :
    ∀ {cs a b : PyStr}, rsplitPlus cs = some (a, b) →
      cs = a ++ '+' :: b ∧ '+' ∉ b := by
  intro cs
  induction cs with
  | nil => intro a b h; exact absurd h (by unfold rsplitPlus; simp)
  | cons c t ih =>
    intro a b h
    unfold rsplitPlus at h
    cases ht : rsplitPlus t with
    | some p =>
      obtain ⟨v1, b1⟩ := p
      rw [ht] at h
      simp only [Option.some.injEq, Prod.mk.injEq] at h
      obtain ⟨h1, h2⟩ := h
      obtain ⟨h3, h4⟩ := ih ht
      constructor
      · rw [← h1, ← h2, h3]
        rfl
      · rw [← h2]
        exact h4
    | none =>
      rw [ht] at h
      by_cases hc : c = '+'
      · rw [if_pos hc] at h
        simp only [Option.some.injEq, Prod.mk.injEq] at h
        obtain ⟨h1, h2⟩ := h
        have hnp : ('+' : Char) ∉ t := rsplitPlus_none_no_plus ht
        constructor
        · rw [← h1, ← h2, hc]
          rfl
        · rw [← h2]
          exact hnp
      · rw [if_neg hc] at h
        exact absurd h (by simp)

/-- Characters of a digit string are neither whitespace nor newline nor
equals sign. -/
theorem good_char_digit {c : Char} (h : c.isDigit = true) :
    pySpace c = false ∧ c ≠ '\n' ∧ c ≠ '=' :=
  ⟨digit_not_space h, ne_of_isDigit h (by decide), ne_of_isDigit h (by decide)⟩

/-- Characters of a strictly valid version string are neither
whitespace nor newline nor equals sign. -/
theorem strict_mem_good {v : PyStr} (h : strictVersionGrammar v = true) :
    ∀ c ∈ v, pySpace c = false ∧ c ≠ '\n' ∧ c ≠ '=' := by
  unfold strictVersionGrammar at h
  have hdot : pySpace '.' = false ∧ ('.' : Char) ≠ '\n' ∧ ('.' : Char) ≠ '=' := by
    refine ⟨by decide, by decide, by decide⟩
  have hplus : pySpace '+' = false ∧ ('+' : Char) ≠ '\n' ∧ ('+' : Char) ≠ '=' := by
    refine ⟨by decide, by decide, by decide⟩
  have htriple : ∀ {w : PyStr}, matchTriple w = true →
      ∀ c ∈ w, pySpace c = false ∧ c ≠ '\n' ∧ c ≠ '=' := by
    intro w hw c hc
    obtain ⟨x, y, z, _, hv, hx, hy, hz⟩ := matchTriple_elim hw
    rw [hv] at hc
    rcases List.mem_append.mp hc with h1 | h2
    · exact good_char_digit ((digitsNonempty_iff.mp hx).2 c h1)
    · rcases List.mem_cons.mp h2 with h3 | h4
      · rw [h3]; exact hdot
      · rcases List.mem_append.mp h4 with h5 | h6
        · exact good_char_digit ((digitsNonempty_iff.mp hy).2 c h5)
        · rcases List.mem_cons.mp h6 with h7 | h8
          · rw [h7]; exact hdot
          · exact good_char_digit ((digitsNonempty_iff.mp hz).2 c h8)
  cases hr : rsplitPlus v with
  | none =>
    rw [hr] at h
    exact htriple h
  | some p =>
    obtain ⟨v0, b0⟩ := p
    rw [hr] at h
    rw [Bool.and_eq_true] at h
    obtain ⟨hm, hb⟩ := h
    obtain ⟨hv, _⟩ := rsplitPlus_eq_append hr
    intro c hc
    rw [hv] at hc
    rcases List.mem_append.mp hc with h1 | h2
    · exact htriple hm c h1
    · rcases List.mem_cons.mp h2 with h3 | h4
      · rw [h3]; exact hplus
      · exact good_char_digit ((digitsNonempty_iff.mp hb).2 c h4)

/-- Strictly valid version strings are nonempty. -/
theorem strict_ne_nil {v : PyStr} (h : strictVersionGrammar v = true) :
    v ≠ [] := by
  unfold strictVersionGrammar at h
  cases hr : rsplitPlus v with
  | none =>
    rw [hr] at h
    obtain ⟨x, y, z, _, hv, hx, _, _⟩ := matchTriple_elim h
    intro he
    rw [he] at hv
    obtain ⟨h1, h2⟩ := List.append_eq_nil.mp hv.symm
    exact List.noConfusion h2
  | some p =>
    obtain ⟨v0, b0⟩ := p
    obtain ⟨hv, _⟩ := rsplitPlus_eq_append hr
    intro he
    rw [he] at hv
    obtain ⟨h1, h2⟩ := List.append_eq_nil.mp hv.symm
    exact List.noConfusion h2

/-- Well-formedness of a legacy entry holding a well-formed key and a
strictly valid version value. -/
theorem wfEntry_key_strict {k v : PyStr} (hk1 : ('=' : Char) ∉ k)
    (hk2 : ('\n' : Char) ∉ k) (hk3 : ∀ c ∈ k, pySpace c = false)
    (hv : strictVersionGrammar v = true) : wfEntry k v := by
  have hgood := strict_mem_good hv
  refine ⟨hk1, hk2, ?_, ?_, ?_, ?_, ?_⟩
  · intro hm
    exact (hgood '\n' hm).2.1 rfl
  · exact fun c hc => hk3 c (List.mem_of_mem_head? hc)
  · exact fun c hc => hk3 c (List.mem_of_mem_getLast? hc)
  · exact fun c hc => (hgood c (List.mem_of_mem_head? hc)).1
  · exact fun c hc => (hgood c (List.mem_of_mem_getLast? hc)).1

/-- Strictly valid version strings pass `validate_version`. -/
theorem validate_of_strict {v : PyStr} (hv : strictVersionGrammar v = true) :
    validate_version v = true := by
  unfold validate_version
  rw [hv]
  rfl

/-- Well-formedness of the legacy key of a target. -/
theorem targetKey_wf (t : PyStr) :
    ('=' : Char) ∉ targetKey t ∧ ('\n' : Char) ∉ targetKey t ∧
      ∀ c ∈ targetKey t, pySpace c = false := by
  unfold targetKey
  by_cases ht : t = clientT
  · rw [if_pos ht]
    refine ⟨by decide, by decide, by decide⟩
  · rw [if_neg ht]
    refine ⟨by decide, by decide, by decide⟩

/-- Setting a strictly valid version and reading it back returns
exactly the version set, on either store representation. -/
theorem setGet_aux (st : VStore) {t v : PyStr}
    (ht : t = clientT ∨ t = serverT) (hv : strictVersionGrammar v = true) :
    ∃ st1, set_version st t v = .ok st1 ∧ get_version st1 t = .ok v := by
  have hval : validate_version v = true := validate_of_strict hv
  have hvne : v ≠ [] := strict_ne_nil hv
  cases st with
  | yaml c s =>
    rcases ht with ht1 | ht1
    · subst ht1
      refine ⟨.yaml (some (some v)) s, ?_, ?_⟩
      · simp [set_version, hval]
      · simp [get_version, hvne]
    · subst ht1
      refine ⟨.yaml c (some (some v)), ?_, ?_⟩
      · simp [set_version, hval, show serverT ≠ clientT from by decide]
      · simp [get_version, hvne, show serverT ≠ clientT from by decide]
  | old content =>
    obtain ⟨hk1, hk2, hk3⟩ := targetKey_wf t
    have hwf : wfAssoc (insertAssoc (parseOldFormat content) (targetKey t) v) :=
      wfAssoc_insert (parseOldFormat_wf content) (wfEntry_key_strict hk1 hk2 hk3 hv)
    refine ⟨.old (serializeOld
      (insertAssoc (parseOldFormat content) (targetKey t) v)), ?_, ?_⟩
    · simp [set_version, hval]
    · simp only [get_version]
      rw [parse_serializeOld hwf, lookupAssoc_insert]
      show (if v = [] then Except.error VErr.missingVersion else Except.ok v) =
        Except.ok v
      rw [if_neg hvne]

/-- Store-level bump computation once all three stages succeed. -/
theorem bump_version_ok {st st1 : VStore} {t kind s nv : PyStr}
    (hg : get_version st t = .ok s)
    (hbs : bump_version_str s kind = .ok nv)
    (hset : set_version st t nv = .ok st1) :
    bump_version st t kind = .ok (st1, nv) := by
  unfold bump_version
  rw [hg]
  show (bump_version_str s kind).bind
    (fun nv2 => (set_version st t nv2).bind
      (fun st2 => Except.ok (st2, nv2))) = Except.ok (st1, nv)
  rw [hbs]
  show (set_version st t nv).bind (fun st2 => Except.ok (st2, nv)) =
    Except.ok (st1, nv)
  rw [hset]
  rfl

/-- Store-level bump computation when the kind dispatch fails. -/
theorem bump_version_err {st : VStore} {t kind s : PyStr} {e : VErr}
    (hg : get_version st t = .ok s)
    (hbs : bump_version_str s kind = .error e) :
    bump_version st t kind = .error e := by
  unfold bump_version
  rw [hg]
  show (bump_version_str s kind).bind
    (fun nv2 => (set_version st t nv2).bind
      (fun st2 => Except.ok (st2, nv2))) = Except.error e
  rw [hbs]
  rfl

/-! Claim theorems. -/

/-- C7: for every target t among client and server and every version
string v matching the valid grammar, performing setVersion(t, v) and
then getVersion(t) returns exactly v, on either store representation. -/
theorem spec_c7 (st : VStore) {t v : PyStr}
    (ht : t = clientT ∨ t = serverT) (hv : strictVersionGrammar v = true) :
    ∃ st1, set_version st t v = .ok st1 ∧ get_version st1 t = .ok v :=
  setGet_aux st ht hv

/-- Witness for C7 at a concrete legacy store and version. -/
theorem spec_c7_witness :
    (clientT = clientT ∨ clientT = serverT) ∧
      strictVersionGrammar (("1.2.3+4").data) = true ∧
      ∃ st1, set_version (VStore.old (("CLIENT_VERSION=1.0.0\n").data))
          clientT (("1.2.3+4").data) = .ok st1 ∧
        get_version st1 clientT = .ok (("1.2.3+4").data) :=
  ⟨Or.inl rfl, by decide,
    @spec_c7 (VStore.old (("CLIENT_VERSION=1.0.0\n").data))
      clientT (("1.2.3+4").data) (Or.inl rfl) (by decide)⟩

/-- C2 counterexample: the string holding 1.0.7 and a trailing newline
is not three non-negative integers joined by dots, yet `parse_version`
accepts it instead of failing, because the dollar anchor of the Python
pattern also matches just before a trailing newline. -/
theorem spec_c2_counterexample :
    matchTriple (("1.0.7\n").data) = false ∧
      parse_version (("1.0.7\n").data) = .ok ((("1.0.7\n").data), ['1']) := by
  decide

/-- C2 as amended: parseVersion splits on the last plus sign; with no
plus sign the build part defaults to the string 1; the version part is
rejected with InvalidFormat unless it is three non-negative integers
joined by dots, possibly followed by one trailing newline; a present
non-digit build part is coerced to the string 1; and the two
documented examples hold. -/
theorem spec_c2 (s v b : PyStr) :
    (('+' : Char) ∉ s → pyMatchTriple s = true →
      parse_version s = .ok (s, ['1'])) ∧
    (('+' : Char) ∉ s → pyMatchTriple s = false →
      parse_version s = .error .invalidFormat) ∧
    (('+' : Char) ∉ b → pyMatchTriple v = false →
      parse_version (v ++ '+' :: b) = .error .invalidFormat) ∧
    (('+' : Char) ∉ b → pyMatchTriple v = true → digitsNonempty b = true →
      parse_version (v ++ '+' :: b) = .ok (v, b)) ∧
    (('+' : Char) ∉ b → pyMatchTriple v = true → digitsNonempty b = false →
      parse_version (v ++ '+' :: b) = .ok (v, ['1'])) ∧
    parse_version (("1.0.7+10").data) = .ok ((("1.0.7").data), (("10").data)) ∧
    parse_version (("1.0.7").data) = .ok ((("1.0.7").data), ['1']) := by
  refine ⟨?_, ?_, ?_, ?_, ?_, by decide, by decide⟩
  · intro hplus hm
    rw [parse_version_eq_none s (rsplitPlus_no_plus hplus), if_pos hm]
  · intro hplus hm
    rw [parse_version_eq_none s (rsplitPlus_no_plus hplus),
      if_neg (by rw [hm]; exact Bool.noConfusion)]
  · intro hplus hm
    rw [parse_version_eq_some _ v b (rsplitPlus_append v hplus),
      if_neg (by rw [hm]; exact Bool.noConfusion)]
  · intro hplus hm hb
    rw [parse_version_eq_some _ v b (rsplitPlus_append v hplus), if_pos hm,
      if_pos hb]
  · intro hplus hm hb
    rw [parse_version_eq_some _ v b (rsplitPlus_append v hplus), if_pos hm,
      if_neg (by rw [hb]; exact Bool.noConfusion)]

/-- Witness for C2 at a concrete input with a non-digit build part. -/
theorem spec_c2_witness :
    (('+' : Char) ∉ (("ab").data) ∧ pyMatchTriple (("1.0.7").data) = true ∧
      digitsNonempty (("ab").data) = false) ∧
    parse_version ((("1.0.7").data) ++ '+' :: (("ab").data)) =
      .ok ((("1.0.7").data), ['1']) :=
  ⟨⟨by decide, by decide, by decide⟩,
    (spec_c2 [] (("1.0.7").data) (("ab").data)).2.2.2.2.1
      (by decide) (by decide) (by decide)⟩

/-- C10: for every stored version string that parses successfully and
every valid bump kind, the bumped string carries an explicit numeric
build suffix in the shape major.minor.patch+build, and therefore passes
the strict validation applied by setVersion. -/
theorem spec_c10 {s v b : PyStr} (hp : parse_version s = .ok (v, b))
    {kind : PyStr}
    (hk : kind = ("major").data ∨ kind = ("minor").data ∨
      kind = ("patch").data ∨ kind = ("build").data) :
    ∃ ma mi pa bu : Nat, bump_version_str s kind = .ok (verStr ma mi pa bu) ∧
      strictVersionGrammar (verStr ma mi pa bu) = true ∧
      validate_version (verStr ma mi pa bu) = true := by
  obtain ⟨hm, hb⟩ := parse_version_ok_shape hp
  obtain ⟨x, y, z, nx, ny, nz, hs, hx, hy, hz⟩ := pyMatchTriple_ints hm
  have hq := bump_version_str_eq hp hs hx hy hz (pyInt_digits hb) kind
  rcases hk with hk1 | hk1 | hk1 | hk1
  · subst hk1
    rw [if_pos rfl] at hq
    exact ⟨nx + 1, 0, 0, digitsToNat b, hq, strict_verStr .., validate_verStr ..⟩
  · subst hk1
    rw [if_neg (by decide), if_pos rfl] at hq
    exact ⟨nx, ny + 1, 0, digitsToNat b, hq, strict_verStr .., validate_verStr ..⟩
  · subst hk1
    rw [if_neg (by decide), if_neg (by decide), if_pos rfl] at hq
    exact ⟨nx, ny, nz + 1, digitsToNat b, hq, strict_verStr .., validate_verStr ..⟩
  · subst hk1
    rw [if_neg (by decide), if_neg (by decide), if_neg (by decide),
      if_pos rfl] at hq
    exact ⟨nx, ny, nz, digitsToNat b + 1, hq, strict_verStr .., validate_verStr ..⟩

/-- Witness for C10: bumping the buildless version 1.0.7 with kind
patch yields 1.0.8+1, which passes the strict validation. -/
theorem spec_c10_witness :
    parse_version (("1.0.7").data) = .ok ((("1.0.7").data), ['1']) ∧
      bump_version_str (("1.0.7").data) (("patch").data) =
        .ok (("1.0.8+1").data) ∧
      (∃ ma mi pa bu : Nat,
        bump_version_str (("1.0.7").data) (("patch").data) =
          .ok (verStr ma mi pa bu) ∧
        strictVersionGrammar (verStr ma mi pa bu) = true ∧
        validate_version (verStr ma mi pa bu) = true) :=
  ⟨by decide, by decide,
    @spec_c10 (("1.0.7").data) (("1.0.7").data) ['1'] (by decide)
      (("patch").data) (Or.inr (Or.inr (Or.inl rfl)))⟩

/-- C1: for every stored version of a target that parses to a
major.minor.patch triple and a build number, bumpVersion applies
exactly one transformation, persists, and returns the new full version
string: major gives (major+1).0.0 with build unchanged, minor gives
major.(minor+1).0 with build unchanged, patch gives
major.minor.(patch+1) with build unchanged, and build gives
major.minor.patch with build+1; any kind outside the four fails with
UnknownBumpKind. -/
theorem spec_c1 (st : VStore) {t s v b x y z : PyStr} {nx ny nz nb : Nat}
    (ht : t = clientT ∨ t = serverT)
    (hg : get_version st t = .ok s)
    (hp : parse_version s = .ok (v, b))
    (hs : splitOnChar '.' v = [x, y, z])
    (hx : pyInt x = some nx) (hy : pyInt y = some ny) (hz : pyInt z = some nz)
    (hb : pyInt b = some nb) :
    (∃ st1, bump_version st t (("major").data) =
        .ok (st1, verStr (nx + 1) 0 0 nb) ∧
      get_version st1 t = .ok (verStr (nx + 1) 0 0 nb)) ∧
    (∃ st1, bump_version st t (("minor").data) =
        .ok (st1, verStr nx (ny + 1) 0 nb) ∧
      get_version st1 t = .ok (verStr nx (ny + 1) 0 nb)) ∧
    (∃ st1, bump_version st t (("patch").data) =
        .ok (st1, verStr nx ny (nz + 1) nb) ∧
      get_version st1 t = .ok (verStr nx ny (nz + 1) nb)) ∧
    (∃ st1, bump_version st t (("build").data) =
        .ok (st1, verStr nx ny nz (nb + 1)) ∧
      get_version st1 t = .ok (verStr nx ny nz (nb + 1))) ∧
    (∀ kind, kind ≠ ("major").data → kind ≠ ("minor").data →
      kind ≠ ("patch").data → kind ≠ ("build").data →
      bump_version st t kind = .error .unknownBumpKind) := by
  have hq := bump_version_str_eq hp hs hx hy hz hb
  refine ⟨?_, ?_, ?_, ?_, ?_⟩
  · have hstr := hq (("major").data)
    rw [if_pos rfl] at hstr
    obtain ⟨st1, hset, hget⟩ := setGet_aux st ht (strict_verStr (nx + 1) 0 0 nb)
    exact ⟨st1, bump_version_ok hg hstr hset, hget⟩
  · have hstr := hq (("minor").data)
    rw [if_neg (by decide), if_pos rfl] at hstr
    obtain ⟨st1, hset, hget⟩ := setGet_aux st ht (strict_verStr nx (ny + 1) 0 nb)
    exact ⟨st1, bump_version_ok hg hstr hset, hget⟩
  · have hstr := hq (("patch").data)
    rw [if_neg (by decide), if_neg (by decide), if_pos rfl] at hstr
    obtain ⟨st1, hset, hget⟩ := setGet_aux st ht (strict_verStr nx ny (nz + 1) nb)
    exact ⟨st1, bump_version_ok hg hstr hset, hget⟩
  · have hstr := hq (("build").data)
    rw [if_neg (by decide), if_neg (by decide), if_neg (by decide),
      if_pos rfl] at hstr
    obtain ⟨st1, hset, hget⟩ := setGet_aux st ht (strict_verStr nx ny nz (nb + 1))
    exact ⟨st1, bump_version_ok hg hstr hset, hget⟩
  · intro kind h1 h2 h3 h4
    have hstr := hq kind
    rw [if_neg h1, if_neg h2, if_neg h3, if_neg h4] at hstr
    exact bump_version_err hg hstr

/-- Witness for C1 at the stored version 1.0.7+10 of the client target
in a structured store. -/
theorem spec_c1_witness :
    (get_version (VStore.yaml (some (some (("1.0.7+10").data))) none) clientT =
        .ok (("1.0.7+10").data) ∧
      parse_version (("1.0.7+10").data) =
        .ok ((("1.0.7").data), (("10").data)) ∧
      verStr 2 0 0 10 = ("2.0.0+10").data) ∧
    (∃ st1, bump_version (VStore.yaml (some (some (("1.0.7+10").data))) none)
        clientT (("major").data) = .ok (st1, verStr 2 0 0 10) ∧
      get_version st1 clientT = .ok (verStr 2 0 0 10)) :=
  ⟨⟨by decide, by decide, by decide⟩,
    (@spec_c1 (VStore.yaml (some (some (("1.0.7+10").data))) none)
      clientT (("1.0.7+10").data) (("1.0.7").data) (("10").data)
      (("1").data) (("0").data) (("7").data) 1 0 7 10
      (Or.inl rfl) (by decide) (by decide) (by decide) (by decide)
      (by decide) (by decide) (by decide)).1⟩

/-- C6 counterexample: updating the legacy document drops the comment
line, so comments are not preserved by the write; the document is
re-serialized from its parsed KEY=VALUE pairs rather than updated by
raw key replacement. -/
theorem spec_c6_counterexample :
    set_version
        (VStore.old (("# note\nCLIENT_VERSION=1.0.0\nSERVER_VERSION=2.0.0\n").data))
        clientT (("1.0.1+2").data) =
      .ok (VStore.old (("CLIENT_VERSION=1.0.1+2\nSERVER_VERSION=2.0.0\n").data)) ∧
    containsSub (("# note").data)
      (("# note\nCLIENT_VERSION=1.0.0\nSERVER_VERSION=2.0.0\n").data) = true ∧
    containsSub (("# note").data)
      (("CLIENT_VERSION=1.0.1+2\nSERVER_VERSION=2.0.0\n").data) = false := by
  decide

/-- C6 as amended: updating the legacy flat document re-serializes the
parsed KEY=VALUE pairs, so every key other than the updated target key
keeps its value, while lines without an equals sign (comments and blank
lines) are dropped and whitespace around keys and values is
normalized. -/
theorem spec_c6 (content : PyStr) {t v : PyStr} (k : PyStr)
    (ht : t = clientT ∨ t = serverT)
    (hv : strictVersionGrammar v = true) (hk : k ≠ targetKey t) :
    ∃ c2, set_version (.old content) t v = .ok (.old c2) ∧
      lookupAssoc (parseOldFormat c2) k = lookupAssoc (parseOldFormat content) k ∧
      lookupAssoc (parseOldFormat c2) (targetKey t) = some v := by
  obtain ⟨hk1, hk2, hk3⟩ := targetKey_wf t
  have hwf : wfAssoc (insertAssoc (parseOldFormat content) (targetKey t) v) :=
    wfAssoc_insert (parseOldFormat_wf content) (wfEntry_key_strict hk1 hk2 hk3 hv)
  refine ⟨serializeOld (insertAssoc (parseOldFormat content) (targetKey t) v),
    ?_, ?_, ?_⟩
  · simp [set_version, validate_of_strict hv]
  · rw [parse_serializeOld hwf]
    exact lookupAssoc_insert_ne _ _ _ _ hk
  · rw [parse_serializeOld hwf]
    exact lookupAssoc_insert _ _ _

/-- Witness for C6: the server key survives a client update. -/
theorem spec_c6_witness :
    ((clientT = clientT ∨ clientT = serverT) ∧
      strictVersionGrammar (("1.0.1+2").data) = true ∧
      ("SERVER_VERSION").data ≠ targetKey clientT) ∧
    (∃ c2, set_version
        (VStore.old (("CLIENT_VERSION=1.0.0\nSERVER_VERSION=2.0.0\n").data))
        clientT (("1.0.1+2").data) = .ok (.old c2) ∧
      lookupAssoc (parseOldFormat c2) (("SERVER_VERSION").data) =
        lookupAssoc
          (parseOldFormat (("CLIENT_VERSION=1.0.0\nSERVER_VERSION=2.0.0\n").data))
          (("SERVER_VERSION").data) ∧
      lookupAssoc (parseOldFormat c2) (targetKey clientT) =
        some (("1.0.1+2").data)) :=
  ⟨⟨Or.inl rfl, by decide, by decide⟩,
    @spec_c6 (("CLIENT_VERSION=1.0.0\nSERVER_VERSION=2.0.0\n").data)
      clientT (("1.0.1+2").data) (("SERVER_VERSION").data)
      (Or.inl rfl) (by decide) (by decide)⟩

/-- Splitting undoes joining on nonempty separator-free segment
lists. -/
theorem splitOnChar_joinChar {sep : Char} :
    ∀ {ls : List PyStr}, ls ≠ [] → (∀ l ∈ ls, sep ∉ l) →
      splitOnChar sep (joinChar sep ls) = ls := by
  intro ls
  induction ls with
  | nil => intro h _; exact absurd rfl h
  | cons l rest ih =>
    intro _ hfree
    cases rest with
    | nil =>
      rw [show joinChar sep [l] = l from rfl]
      rw [splitOnChar_no_sep (hfree l (List.mem_cons_self l []))]
    | cons l2 rest2 =>
      rw [show joinChar sep (l :: l2 :: rest2) =
        l ++ sep :: joinChar sep (l2 :: rest2) from rfl]
      rw [splitOnChar_append_cons _ (hfree l (List.mem_cons_self l _))]
      rw [ih (List.cons_ne_nil l2 rest2)
        (fun l3 hl3 => hfree l3 (List.mem_cons_of_mem l hl3))]

/-- Unfolding equation of the sync operation once the version read and
the parse are supplied. -/
theorem sync_to_pubspec_eq (st : VStore) {t s v b : PyStr}
    (hg : get_version st t = .ok s) (hp : parse_version s = .ok (v, b))
    (file : Option PyStr) :
    sync_to_pubspec st t file =
      match file with
      | none => .error .notFound
      | some content =>
        .ok (joinChar '\n'
          (reSubVersionLines (v ++ '+' :: b) false (splitOnChar '\n' content))) := by
  unfold sync_to_pubspec
  rw [hg]
  show (parse_version s).bind (fun p =>
    match p with
    | (v2, b2) =>
      match file with
      | none => Except.error VErr.notFound
      | some content =>
        Except.ok (joinChar '\n'
          (reSubVersionLines (v2 ++ '+' :: b2) false
            (splitOnChar '\n' content)))) = _
  rw [hp]
  rfl

/-- A failed starting-segment test means removal fails. -/
theorem dropStart_none_of_not_starts :
    ∀ {p s : PyStr}, startsL p s = false → dropStart p s = none := by
  intro p
  induction p with
  | nil => intro s h; exact absurd h (by unfold startsL; simp)
  | cons a as ih =>
    intro s h
    cases s with
    | nil => rfl
    | cons b bs =>
      unfold startsL at h
      unfold dropStart
      by_cases hab : a = b
      · rw [if_pos hab]
        apply ih
        rw [hab] at h
        simpa using h
      · rw [if_neg hab]

/-- The substitution in normal mode fixes a line list none of whose
lines starts with the version keyword. -/
theorem reSubVersionLines_no_match (full : PyStr) :
    ∀ {ls : List PyStr}, (∀ l ∈ ls, startsL verKey l = false) →
      reSubVersionLines full false ls = ls := by
  intro ls
  induction ls with
  | nil => intro _; rfl
  | cons l ls2 ih =>
    intro h
    simp only [reSubVersionLines]
    rw [dropStart_none_of_not_starts (h l (List.mem_cons_self l ls2))]
    rw [ih (fun l2 hl2 => h l2 (List.mem_cons_of_mem l hl2))]

/-- Unfolding equation of the substitution in normal mode on a line
starting with the version keyword. -/
theorem reSubVersionLines_cons_some (full l rlv : PyStr) (ls : List PyStr)
    (h : dropStart verKey l = some rlv) :
    reSubVersionLines full false (l :: ls) =
      if rlv.all pySpace = true then
        (verRepl ++ full) :: reSubVersionLines full true ls
      else
        (verRepl ++ full) :: reSubVersionLines full false ls := by
  simp only [reSubVersionLines]
  rw [h]

/-- C9 counterexample: on a file holding exactly one line starting with
the version keyword, namely a bare one with nothing after the colon,
the substitution of the source deletes the following line, so the
other lines of the file are not left untouched: the whitespace class of
the pattern crosses the newline and the dot then consumes the next
line. -/
theorem spec_c9_counterexample :
    sync_to_pubspec (VStore.yaml (some (some (("1.0.7+10").data))) none)
        clientT (some (("name: x\nversion:\ndesc: y").data)) =
      .ok (("name: x\nversion: 1.0.7+10").data) ∧
    containsSub (("desc: y").data) (("name: x\nversion:\ndesc: y").data) = true ∧
    containsSub (("desc: y").data) (("name: x\nversion: 1.0.7+10").data) = false := by
  decide

/-- C9 as amended: syncToBuildManifest fails with NotFound when the
file is missing; on a file whose lines are newline-free, exactly one of
which starts with the version keyword, and where that line carries a
non-whitespace character after the colon, it rewrites that single line
to the current full version string and leaves every other line of the
file untouched.  (When only whitespace follows the keyword, the match
instead crosses the newline and also consumes following lines.) -/
theorem spec_c9 (st : VStore) {t s v b : PyStr}
    (hg : get_version st t = .ok s) (hp : parse_version s = .ok (v, b))
    (pre post : List PyStr) (rlv : PyStr)
    (hlines : ∀ l ∈ pre ++ (verKey ++ rlv) :: post, ('\n' : Char) ∉ l)
    (hnws : rlv.all pySpace = false)
    (hrest : ∀ l ∈ pre ++ post, startsL verKey l = false) :
    sync_to_pubspec st t none = .error .notFound ∧
    sync_to_pubspec st t (some (joinChar '\n' (pre ++ (verKey ++ rlv) :: post))) =
      .ok (joinChar '\n' (pre ++ (verRepl ++ (v ++ '+' :: b)) :: post)) := by
  constructor
  · rw [sync_to_pubspec_eq st hg hp none]
  · rw [sync_to_pubspec_eq st hg hp
      (some (joinChar '\n' (pre ++ (verKey ++ rlv) :: post)))]
    show Except.ok (joinChar '\n'
      (reSubVersionLines (v ++ '+' :: b) false
        (splitOnChar '\n' (joinChar '\n' (pre ++ (verKey ++ rlv) :: post))))) = _
    rw [splitOnChar_joinChar (by simp) hlines]
    have hmain : ∀ pre2 : List PyStr, (∀ l ∈ pre2, startsL verKey l = false) →
        reSubVersionLines (v ++ '+' :: b) false
          (pre2 ++ (verKey ++ rlv) :: post) =
          pre2 ++ (verRepl ++ (v ++ '+' :: b)) :: post := by
      intro pre2
      induction pre2 with
      | nil =>
        intro _
        rw [List.nil_append, List.nil_append]
        rw [reSubVersionLines_cons_some (v ++ '+' :: b) (verKey ++ rlv) rlv post
          (dropStart_append_self verKey rlv)]
        rw [if_neg (by rw [hnws]; exact Bool.noConfusion)]
        rw [reSubVersionLines_no_match (v ++ '+' :: b)
          (fun l hl => hrest l (List.mem_append_right pre hl))]
      | cons l pre3 ih =>
        intro h
        rw [List.cons_append, List.cons_append]
        simp only [reSubVersionLines]
        rw [dropStart_none_of_not_starts (h l (List.mem_cons_self l pre3))]
        rw [ih (fun l2 hl2 => h l2 (List.mem_cons_of_mem l hl2))]
    rw [hmain pre (fun l hl => hrest l (List.mem_append_left post hl))]

/-- Witness for C9 at a concrete store and a three-line build-metadata
file whose version line carries a value after the colon. -/
theorem spec_c9_witness :
    (get_version (VStore.yaml (some (some (("1.0.7+10").data))) none) clientT =
        .ok (("1.0.7+10").data) ∧
      ((" 0.0.1").data).all pySpace = false ∧
      verKey ++ ((" 0.0.1").data) = ("version: 0.0.1").data) ∧
    (sync_to_pubspec (VStore.yaml (some (some (("1.0.7+10").data))) none)
        clientT none = .error .notFound ∧
      sync_to_pubspec (VStore.yaml (some (some (("1.0.7+10").data))) none)
        clientT
        (some (joinChar '\n'
          ([("name: x").data] ++
            (verKey ++ ((" 0.0.1").data)) :: [("desc: y").data]))) =
      .ok (joinChar '\n'
        ([("name: x").data] ++
          (verRepl ++ ((("1.0.7").data) ++ '+' :: (("10").data)))
            :: [("desc: y").data]))) :=
  ⟨⟨by decide, by decide, by decide⟩,
    @spec_c9 (VStore.yaml (some (some (("1.0.7+10").data))) none)
      clientT (("1.0.7+10").data) (("1.0.7").data) (("10").data)
      (by decide) (by decide)
      [("name: x").data] [("desc: y").data] ((" 0.0.1").data)
      (by decide) (by decide) (by decide)⟩

/-- Characterization of the mapping produced by a directory pass: the
successful non-excluded files in walk order. -/
theorem calc_dir_map_eq (files : List (PyStr × Except Unit PyStr))
    (ex : PyStr → Bool) :
    (calculate_hashes_for_directory files ex).1 =
      files.filterMap (fun pr =>
        if ex pr.1 then none
        else match pr.2 with
          | .ok h => some (pr.1, h)
          | .error _ => none) := by
  induction files with
  | nil => rfl
  | cons pr rest ih =>
    obtain ⟨p, r⟩ := pr
    rw [List.filterMap_cons]
    by_cases hex : ex p = true
    · simp only [calculate_hashes_for_directory, hex, if_true, ih]
    · have hnx : ex p = false := Bool.eq_false_iff.mpr hex
      cases r with
      | ok h =>
        simp only [calculate_hashes_for_directory, hnx, ih]
        simp
      | error e =>
        simp only [calculate_hashes_for_directory, hnx, ih]
        simp

/-- Characterization of the error counter of a directory pass: the
number of failing non-excluded files. -/
theorem calc_dir_err_eq (files : List (PyStr × Except Unit PyStr))
    (ex : PyStr → Bool) :
    (calculate_hashes_for_directory files ex).2.1 =
      (files.filter (fun pr =>
        !ex pr.1 &&
          (match pr.2 with | .ok _ => false | .error _ => true))).length := by
  induction files with
  | nil => rfl
  | cons pr rest ih =>
    obtain ⟨p, r⟩ := pr
    rw [List.filter_cons]
    by_cases hex : ex p = true
    · simp only [calculate_hashes_for_directory, hex, if_true, ih,
        Bool.not_true, Bool.false_and]
      simp
    · have hnx : ex p = false := Bool.eq_false_iff.mpr hex
      cases r with
      | ok h =>
        simp only [calculate_hashes_for_directory, hnx, ih,
          Bool.not_false, Bool.true_and]
        simp
      | error e =>
        simp only [calculate_hashes_for_directory, hnx, ih,
          Bool.not_false, Bool.true_and]
        simp

/-- C8: per-file hashing failures never abort a directory pass: the
mapping returned is exactly the successful non-excluded files in walk
order, the error counter counts exactly the failing non-excluded files,
every successfully hashed non-excluded file is present in the mapping
whatever happens to the other files, and an empty overall mapping after
a full scan is reported as an error with a non-zero status while a
non-empty mapping is kept. -/
theorem spec_c8 (files : List (PyStr × Except Unit PyStr)) (ex : PyStr → Bool) :
    (calculate_hashes_for_directory files ex).1 =
      files.filterMap (fun pr =>
        if ex pr.1 then none
        else match pr.2 with
          | .ok h => some (pr.1, h)
          | .error _ => none) ∧
    (calculate_hashes_for_directory files ex).2.1 =
      (files.filter (fun pr =>
        !ex pr.1 &&
          (match pr.2 with | .ok _ => false | .error _ => true))).length ∧
    (∀ p h, (p, Except.ok h) ∈ files → ex p = false →
      (p, h) ∈ (calculate_hashes_for_directory files ex).1) ∧
    hashResultGate [] = .error 1 ∧
    (∀ m, m ≠ [] → hashResultGate m = .ok m) := by
  refine ⟨calc_dir_map_eq files ex, calc_dir_err_eq files ex, ?_, rfl, ?_⟩
  · intro p h hmem hnx
    rw [calc_dir_map_eq files ex]
    apply List.mem_filterMap.mpr
    refine ⟨(p, Except.ok h), hmem, ?_⟩
    simp only [hnx]
    simp
  · intro m hm
    unfold hashResultGate
    rw [if_neg hm]

/-- Witness for C8: a pass over one failing, one excluded and one
successful file returns the successful entry, counts one error, and
the non-empty mapping passes the gate. -/
theorem spec_c8_witness :
    ((("a.zip").data, Except.ok (("h1").data)) ∈
        ([((("bad.zip").data), Except.error ()),
          ((("skip.zip").data), Except.ok (("h2").data)),
          ((("a.zip").data), Except.ok (("h1").data))] :
          List (PyStr × Except Unit PyStr)) ∧
      (fun p => p = ("skip.zip").data : PyStr → Bool) (("a.zip").data) = false) ∧
    ((("a.zip").data, ("h1").data) ∈
      (calculate_hashes_for_directory
        [((("bad.zip").data), Except.error ()),
          ((("skip.zip").data), Except.ok (("h2").data)),
          ((("a.zip").data), Except.ok (("h1").data))]
        (fun p => p = ("skip.zip").data)).1) ∧
    (calculate_hashes_for_directory
        [((("bad.zip").data), Except.error ()),
          ((("skip.zip").data), Except.ok (("h2").data)),
          ((("a.zip").data), Except.ok (("h1").data))]
        (fun p => p = ("skip.zip").data)).2.1 = 1 :=
  ⟨⟨by decide, by decide⟩,
    (spec_c8
      [((("bad.zip").data), Except.error ()),
        ((("skip.zip").data), Except.ok (("h2").data)),
        ((("a.zip").data), Except.ok (("h1").data))]
      (fun p => p = ("skip.zip").data)).2.2.1
      (("a.zip").data) (("h1").data) (by decide) (by decide),
    by decide⟩

/-- C5: when a non-empty pre-computed hash dictionary is supplied, the
manifest builder resolves every artifact hash by exact relative path
first, then by bare file name, and only on a double miss computes the
digest fresh from the file; found digests are reused verbatim.  The
statement characterizes all three artifact slots of the built
manifest. -/
theorem spec_c5 (clientVersion serverVersion macosFile windowsFile androidFile
    tagVersion repoOwner repoName : PyStr)
    (baseUrl updateCheckUrl : Option PyStr) (repoType : PyStr)
    (fh : List (PyStr × PyStr)) (hne : fh ≠ [])
    (computeHash : PyStr → PyStr) (now : PyStr) :
    (∀ slot : (GenConfig → GenPlatform) × PyStr,
      slot ∈ ([(GenConfig.macos, macosFile), (GenConfig.windows, windowsFile),
        (GenConfig.android, androidFile)] :
          List ((GenConfig → GenPlatform) × PyStr)) →
      (∀ d, lookupAssoc fh slot.2 = some d →
        (slot.1 (generate_update_config clientVersion serverVersion macosFile
          windowsFile androidFile tagVersion repoOwner repoName baseUrl
          updateCheckUrl repoType (some fh) computeHash now)).fileHash = d) ∧
      (∀ d, lookupAssoc fh slot.2 = none →
        lookupAssoc fh (basename slot.2) = some d →
        (slot.1 (generate_update_config clientVersion serverVersion macosFile
          windowsFile androidFile tagVersion repoOwner repoName baseUrl
          updateCheckUrl repoType (some fh) computeHash now)).fileHash = d) ∧
      (lookupAssoc fh slot.2 = none →
        lookupAssoc fh (basename slot.2) = none →
        (slot.1 (generate_update_config clientVersion serverVersion macosFile
          windowsFile androidFile tagVersion repoOwner repoName baseUrl
          updateCheckUrl repoType (some fh) computeHash now)).fileHash =
          computeHash slot.2)) := by
  have hhash : ∀ path name : PyStr,
      (∀ d, lookupAssoc fh path = some d →
        get_file_hash (some fh) computeHash path name = d) ∧
      (∀ d, lookupAssoc fh path = none → lookupAssoc fh name = some d →
        get_file_hash (some fh) computeHash path name = d) ∧
      (lookupAssoc fh path = none → lookupAssoc fh name = none →
        get_file_hash (some fh) computeHash path name = computeHash path) := by
    intro path name
    have hred : get_file_hash (some fh) computeHash path name =
        (if fh = [] then computeHash path
         else match lookupAssoc fh path with
           | some h => h
           | none =>
             match lookupAssoc fh name with
             | some h => h
             | none => computeHash path) := rfl
    refine ⟨?_, ?_, ?_⟩
    · intro d hd
      rw [hred, if_neg hne, hd]
    · intro d hpath hd
      rw [hred, if_neg hne, hpath, hd]
    · intro hpath hname
      rw [hred, if_neg hne, hpath, hname]
  intro slot hslot
  rcases List.mem_cons.mp hslot with h1 | h1
  · rw [h1]
    exact hhash macosFile (basename macosFile)
  rcases List.mem_cons.mp h1 with h2 | h2
  · rw [h2]
    exact hhash windowsFile (basename windowsFile)
  rcases List.mem_cons.mp h2 with h3 | h3
  · rw [h3]
    exact hhash androidFile (basename androidFile)
  · exact absurd h3 (List.not_mem_nil slot)

/-- Witness for C5: the macOS digest is taken verbatim by exact path,
the Windows digest by bare name, and the Android digest is computed
fresh. -/
theorem spec_c5_witness :
    ((([((("art/m.zip").data), (("d1").data)),
        ((("w.zip").data), (("d2").data))] : List (PyStr × PyStr)) ≠ []) ∧
      lookupAssoc [((("art/m.zip").data), (("d1").data)),
        ((("w.zip").data), (("d2").data))] (("art/m.zip").data) =
          some (("d1").data)) ∧
    ((GenConfig.macos (generate_update_config (("1.0.7+10").data)
        (("1.0.7+10").data) (("art/m.zip").data) (("art/w.zip").data)
        (("art/a.zip").data) (("v1.0.7").data) (("o").data) (("r").data)
        none none (("github").data)
        (some [((("art/m.zip").data), (("d1").data)),
          ((("w.zip").data), (("d2").data))])
        (fun p => ("C").data ++ p) (("T").data))).fileHash = ("d1").data) :=
  ⟨⟨by decide, by decide⟩,
    ((spec_c5 (("1.0.7+10").data) (("1.0.7+10").data) (("art/m.zip").data)
      (("art/w.zip").data) (("art/a.zip").data) (("v1.0.7").data)
      (("o").data) (("r").data) none none (("github").data)
      [((("art/m.zip").data), (("d1").data)), ((("w.zip").data), (("d2").data))]
      (by decide) (fun p => ("C").data ++ p) (("T").data)
      (GenConfig.macos, (("art/m.zip").data))
      (List.mem_cons_self _ _)).1 (("d1").data) (by decide))⟩

/-- C4: with no baseUrl or updateCheckUrl override, the builder uses
the GitHub host for backend github and the Gitee host for backend
gitee, sets every downloadUrl to the base URL followed by the artifact
file name, and defaults updateCheckUrl to the backend-specific file
under the UpdateConfig release tag for GitHub and the config release
tag for Gitee. -/
theorem spec_c4 (clientVersion serverVersion macosFile windowsFile androidFile
    tagVersion repoOwner repoName : PyStr) {repoType : PyStr}
    (fileHashes : Option (List (PyStr × PyStr)))
    (computeHash : PyStr → PyStr) (now : PyStr)
    (hrt : repoType = ("github").data ∨ repoType = ("gitee").data) :
    (repoType = ("github").data →
      (generate_update_config clientVersion serverVersion macosFile windowsFile
        androidFile tagVersion repoOwner repoName none none repoType fileHashes
        computeHash now).macos.downloadUrl =
          (("https://github.com/").data ++ repoOwner ++ '/' :: repoName
            ++ ("/releases/download/").data ++ tagVersion)
            ++ '/' :: basename macosFile ∧
      (generate_update_config clientVersion serverVersion macosFile windowsFile
        androidFile tagVersion repoOwner repoName none none repoType fileHashes
        computeHash now).windows.downloadUrl =
          (("https://github.com/").data ++ repoOwner ++ '/' :: repoName
            ++ ("/releases/download/").data ++ tagVersion)
            ++ '/' :: basename windowsFile ∧
      (generate_update_config clientVersion serverVersion macosFile windowsFile
        androidFile tagVersion repoOwner repoName none none repoType fileHashes
        computeHash now).android.downloadUrl =
          (("https://github.com/").data ++ repoOwner ++ '/' :: repoName
            ++ ("/releases/download/").data ++ tagVersion)
            ++ '/' :: basename androidFile ∧
      (generate_update_config clientVersion serverVersion macosFile windowsFile
        androidFile tagVersion repoOwner repoName none none repoType fileHashes
        computeHash now).updateCheckUrl =
          ("https://github.com/").data ++ repoOwner ++ '/' :: repoName
            ++ ("/releases/download/UpdateConfig/update_config_github.json").data) ∧
    (repoType = ("gitee").data →
      (generate_update_config clientVersion serverVersion macosFile windowsFile
        androidFile tagVersion repoOwner repoName none none repoType fileHashes
        computeHash now).macos.downloadUrl =
          (("https://gitee.com/").data ++ repoOwner ++ '/' :: repoName
            ++ ("/releases/download/").data ++ tagVersion)
            ++ '/' :: basename macosFile ∧
      (generate_update_config clientVersion serverVersion macosFile windowsFile
        androidFile tagVersion repoOwner repoName none none repoType fileHashes
        computeHash now).windows.downloadUrl =
          (("https://gitee.com/").data ++ repoOwner ++ '/' :: repoName
            ++ ("/releases/download/").data ++ tagVersion)
            ++ '/' :: basename windowsFile ∧
      (generate_update_config clientVersion serverVersion macosFile windowsFile
        androidFile tagVersion repoOwner repoName none none repoType fileHashes
        computeHash now).android.downloadUrl =
          (("https://gitee.com/").data ++ repoOwner ++ '/' :: repoName
            ++ ("/releases/download/").data ++ tagVersion)
            ++ '/' :: basename androidFile ∧
      (generate_update_config clientVersion serverVersion macosFile windowsFile
        androidFile tagVersion repoOwner repoName none none repoType fileHashes
        computeHash now).updateCheckUrl =
          ("https://gitee.com/").data ++ repoOwner ++ '/' :: repoName
            ++ ("/releases/download/config/update_config_gitee.json").data) := by
  constructor
  · intro hgh
    subst hgh
    refine ⟨?_, ?_, ?_, ?_⟩ <;>
      simp [generate_update_config, show ¬(("github").data = ("gitee").data)
        from by decide]
  · intro hge
    subst hge
    refine ⟨?_, ?_, ?_, ?_⟩ <;> simp [generate_update_config]

/-- Witness for C4 at concrete GitHub coordinates. -/
theorem spec_c4_witness :
    ((("github").data = ("github").data ∨ ("github").data = ("gitee").data) ∧
      basename (("art/m.zip").data) = ("m.zip").data) ∧
    ((generate_update_config (("1.0.7+10").data) (("1.0.7+10").data)
        (("art/m.zip").data) (("art/w.zip").data) (("art/a.zip").data)
        (("v1.0.7").data) (("o").data) (("r").data) none none
        (("github").data) none (fun p => ("C").data ++ p)
        (("T").data)).macos.downloadUrl =
      (("https://github.com/").data ++ (("o").data) ++ '/' :: (("r").data)
        ++ ("/releases/download/").data ++ (("v1.0.7").data))
        ++ '/' :: basename (("art/m.zip").data)) :=
  ⟨⟨Or.inl rfl, by decide⟩,
    ((spec_c4 (("1.0.7+10").data) (("1.0.7+10").data) (("art/m.zip").data)
      (("art/w.zip").data) (("art/a.zip").data) (("v1.0.7").data)
      (("o").data) (("r").data) none (fun p => ("C").data ++ p)
      (("T").data) (Or.inl rfl)).1 rfl).1⟩

/-! Facts about the transcoder URL matcher. -/

/-- A list all of whose members satisfy the predicate survives
`takeWhile`. -/
theorem takeWhile_all {p : Char → Bool} :
    ∀ {l : PyStr}, (∀ c ∈ l, p c = true) → l.takeWhile p = l := by
  intro l
  induction l with
  | nil => intro _; rfl
  | cons c t ih =>
    intro h
    rw [List.takeWhile_cons, if_pos (h c (List.mem_cons_self c t)),
      ih (fun c2 hc2 => h c2 (List.mem_cons_of_mem c hc2))]

/-- One slash-delimited segment taken off an explicit concatenation. -/
theorem takeSegNE_append {a : PyStr} (b : PyStr) (ha1 : a ≠ [])
    (ha2 : ('/' : Char) ∉ a) : takeSegNE (a ++ '/' :: b) = some (a, b) := by
  unfold takeSegNE
  rw [splitFirstCh_append b ha2]
  show (if a = [] then none else some (a, b)) = some (a, b)
  rw [if_neg ha1]

/-- The download-URL pattern of the conversion script matches an
explicit GitHub release download URL and extracts its components. -/
theorem matchGithubUrl_eq {o r t f : PyStr}
    (ho1 : o ≠ []) (ho2 : ('/' : Char) ∉ o)
    (hr1 : r ≠ []) (hr2 : ('/' : Char) ∉ r)
    (ht1 : t ≠ []) (ht2 : ('/' : Char) ∉ t)
    (hf1 : f ≠ []) (hf2 : ('\n' : Char) ∉ f) :
    matchGithubUrl (githubDownloadUrl o r t f) = some (o, r, t, f) := by
  have hu : githubDownloadUrl o r t f =
      ("https://github.com/").data ++
        (o ++ '/' :: (r ++ '/' :: (("releases/download/").data
          ++ (t ++ '/' :: f)))) := by
    unfold githubDownloadUrl
    rw [show ("/releases/download/").data =
      '/' :: ("releases/download/").data from rfl]
    simp [List.append_assoc]
  have htake : f.takeWhile (fun c => !(c == '\n')) = f := by
    apply takeWhile_all
    intro c hc
    have hcne : c ≠ '\n' := fun he => hf2 (he ▸ hc)
    rw [Bool.not_eq_true']
    exact beq_eq_false_iff_ne.mpr hcne
  rw [hu]
  unfold matchGithubUrl
  rw [dropStart_append_self]
  simp only [Option.bind_eq_bind, Option.some_bind]
  rw [takeSegNE_append _ ho1 ho2]
  simp only [Option.some_bind]
  rw [takeSegNE_append _ hr1 hr2]
  simp only [Option.some_bind]
  rw [dropStart_append_self]
  simp only [Option.some_bind]
  rw [takeSegNE_append _ ht1 ht2]
  simp only [Option.some_bind]
  rw [htake, if_neg hf1]

/-- Every explicit GitHub release download URL mentions the GitHub
host. -/
theorem containsSub_githubUrl (o r t f : PyStr) :
    containsSub (("github.com").data) (githubDownloadUrl o r t f) = true := by
  have hu : githubDownloadUrl o r t f =
      ("https://github.com/").data ++
        (o ++ '/' :: r ++ ("/releases/download/").data ++ t ++ '/' :: f) := by
    unfold githubDownloadUrl
    simp [List.append_assoc]
  rw [hu]
  exact containsSub_append_left _ (by decide)

/-- Per-entry rewrite on an explicit GitHub-shaped download URL. -/
theorem convertPlat_match {ρ : Type} (ow rp : PyStr) (e : PlatformEntry ρ)
    {o r t f : PyStr}
    (ho1 : o ≠ []) (ho2 : ('/' : Char) ∉ o)
    (hr1 : r ≠ []) (hr2 : ('/' : Char) ∉ r)
    (ht1 : t ≠ []) (ht2 : ('/' : Char) ∉ t)
    (hf1 : f ≠ []) (hf2 : ('\n' : Char) ∉ f)
    (hurl : e.downloadUrl = some (githubDownloadUrl o r t f)) :
    convertPlat ow rp e =
      { e with downloadUrl := some (giteeDownloadUrl ow rp t f) } := by
  unfold convertPlat
  rw [hurl]
  show (if containsSub (("github.com").data) (githubDownloadUrl o r t f) = true
      then { e with
              downloadUrl :=
                some (rewriteDownloadUrl ow rp (githubDownloadUrl o r t f)) }
      else e) = _
  rw [if_pos (containsSub_githubUrl o r t f)]
  unfold rewriteDownloadUrl
  rw [matchGithubUrl_eq ho1 ho2 hr1 hr2 ht1 ht2 hf1 hf2]

/-- Per-entry rewrite falling back to the verbatim host replacement. -/
theorem convertPlat_fallback {ρ : Type} (ow rp : PyStr) (e : PlatformEntry ρ)
    {u : PyStr} (hurl : e.downloadUrl = some u)
    (hcont : containsSub (("github.com").data) u = true)
    (hmatch : matchGithubUrl u = none) :
    convertPlat ow rp e =
      { e with downloadUrl := some (replaceAll (("github.com").data)
        (("gitee.com").data) u) } := by
  unfold convertPlat
  rw [hurl]
  show (if containsSub (("github.com").data) u = true
      then { e with downloadUrl := some (rewriteDownloadUrl ow rp u) }
      else e) = _
  rw [if_pos hcont]
  unfold rewriteDownloadUrl
  rw [hmatch]

/-- Entries whose download URL does not mention the GitHub host are
untouched. -/
theorem convertPlat_skip {ρ : Type} (ow rp : PyStr) (e : PlatformEntry ρ)
    {u : PyStr} (hurl : e.downloadUrl = some u)
    (hcont : containsSub (("github.com").data) u = false) :
    convertPlat ow rp e = e := by
  unfold convertPlat
  rw [hurl]
  show (if containsSub (("github.com").data) u = true
      then { e with downloadUrl := some (rewriteDownloadUrl ow rp u) }
      else e) = _
  rw [if_neg (by rw [hcont]; exact Bool.noConfusion)]

/-- Entries without a download URL are untouched. -/
theorem convertPlat_none {ρ : Type} (ow rp : PyStr) (e : PlatformEntry ρ)
    (hurl : e.downloadUrl = none) : convertPlat ow rp e = e := by
  unfold convertPlat
  rw [hurl]
  show (if containsSub (("github.com").data) [] = true
      then { e with downloadUrl := some (rewriteDownloadUrl ow rp []) }
      else e) = _
  rw [if_neg (by decide)]

/-- C3: retargeting a manifest to Gitee rewrites updateCheckUrl
unconditionally to the Gitee config-tag scheme; every recognized
platform entry is transformed by the per-entry rewrite, which on a
GitHub-shaped download URL rebuilds the URL with the Gitee host, the
new owner and repo, and the same tag and file, falls back to a verbatim
host-substring replacement when the pattern fails, and leaves entries
without the GitHub host untouched; all fields other than the two URL
fields, including every opaque rest component, pass through
unmodified. -/
theorem spec_c3 {ρ : Type} (ow rp : PyStr) (c : ConfigDoc ρ) :
    (convert_to_gitee ow rp c).updateCheckUrl = some (giteeCheckUrl ow rp) ∧
    (convert_to_gitee ow rp c).rest = c.rest ∧
    (convert_to_gitee ow rp c).client = c.client.map (fun cs =>
      { cs with platforms := cs.platforms.map (fun ps =>
          { ps with
            macos := ps.macos.map (convertPlat ow rp)
            windows := ps.windows.map (convertPlat ow rp) }) }) ∧
    (convert_to_gitee ow rp c).server = c.server.map (fun ss =>
      { ss with platforms := ss.platforms.map (fun ps =>
          { ps with android := ps.android.map (convertPlat ow rp) }) }) ∧
    (∀ e : PlatformEntry ρ, ∀ o r t f : PyStr,
      o ≠ [] → ('/' : Char) ∉ o → r ≠ [] → ('/' : Char) ∉ r →
      t ≠ [] → ('/' : Char) ∉ t → f ≠ [] → ('\n' : Char) ∉ f →
      e.downloadUrl = some (githubDownloadUrl o r t f) →
      convertPlat ow rp e =
        { e with downloadUrl := some (giteeDownloadUrl ow rp t f) }) ∧
    (∀ e : PlatformEntry ρ, ∀ u : PyStr, e.downloadUrl = some u →
      containsSub (("github.com").data) u = true → matchGithubUrl u = none →
      convertPlat ow rp e =
        { e with downloadUrl := some (replaceAll (("github.com").data)
          (("gitee.com").data) u) }) ∧
    (∀ e : PlatformEntry ρ, ∀ u : PyStr, e.downloadUrl = some u →
      containsSub (("github.com").data) u = false → convertPlat ow rp e = e) ∧
    (∀ e : PlatformEntry ρ, e.downloadUrl = none → convertPlat ow rp e = e) := by
  refine ⟨rfl, rfl, rfl, rfl, ?_, ?_, ?_, ?_⟩
  · intro e o r t f ho1 ho2 hr1 hr2 ht1 ht2 hf1 hf2 hurl
    exact convertPlat_match ow rp e ho1 ho2 hr1 hr2 ht1 ht2 hf1 hf2 hurl
  · intro e u hurl hcont hmatch
    exact convertPlat_fallback ow rp e hurl hcont hmatch
  · intro e u hurl hcont
    exact convertPlat_skip ow rp e hurl hcont
  · intro e hurl
    exact convertPlat_none ow rp e hurl

/-- Witness for C3 at a concrete one-entry manifest: the GitHub URL of
owner A and repo B is rebuilt with Gitee owner C and repo D, keeping
tag v1 and file app.zip, and the rest component is untouched. -/
theorem spec_c3_witness :
    ((PlatformEntry.mk
        (some (githubDownloadUrl (("A").data) (("B").data)
          (("v1").data) (("app.zip").data))) (7 : Nat)).downloadUrl =
      some (githubDownloadUrl (("A").data) (("B").data)
        (("v1").data) (("app.zip").data))) ∧
    (convert_to_gitee (("C").data) (("D").data)
      (ConfigDoc.mk none none none (3 : Nat))).updateCheckUrl =
        some (giteeCheckUrl (("C").data) (("D").data)) ∧
    convertPlat (("C").data) (("D").data)
        (PlatformEntry.mk
          (some (githubDownloadUrl (("A").data) (("B").data)
            (("v1").data) (("app.zip").data))) (7 : Nat)) =
      { PlatformEntry.mk
          (some (githubDownloadUrl (("A").data) (("B").data)
            (("v1").data) (("app.zip").data))) (7 : Nat) with
        downloadUrl := some (giteeDownloadUrl (("C").data) (("D").data)
          (("v1").data) (("app.zip").data)) } :=
  ⟨rfl,
    (spec_c3 (("C").data) (("D").data)
      (ConfigDoc.mk none none none (3 : Nat))).1,
    (spec_c3 (("C").data) (("D").data)
      (ConfigDoc.mk (ρ := Nat) none none none (3 : Nat))).2.2.2.2.1
      (PlatformEntry.mk
        (some (githubDownloadUrl (("A").data) (("B").data)
          (("v1").data) (("app.zip").data))) (7 : Nat))
      (("A").data) (("B").data) (("v1").data) (("app.zip").data)
      (by decide) (by decide) (by decide) (by decide)
      (by decide) (by decide) (by decide) (by decide) rfl⟩

end RemoteCam
